import Mathlib

/-!
Verification development for the PR-feedback scripts of this repository.

Two components are embedded:

* the comment Aggregator (`buildHierarchy` in `scripts/fetch-pr-comments.js`),
  which merges reviews, inline review comments and issue comments of one pull
  request into per-review trees, an orphan set, a flat chronologically ordered
  list and verification statistics; and
* the Reply Dispatcher (`reply-pr-comments.js`), which routes a list of
  `(id, body, type)` reply requests to the correct write endpoint and reports a
  success/failure partition plus an exit code.

The embedding is a shallow one: JavaScript objects keyed by numeric ids become
association lists with JavaScript lookup/insert semantics, JavaScript
truthiness tests on optional numeric and string fields are modelled
explicitly, `Array.prototype.sort` (stable in Node) becomes a stable insertion
sort, and the network is an oracle parameter.  Fields that the scripts only
print for humans (the `meta` and `pr` blocks, the markdown renderer, argument
parsing) are outside the model, as are transport and authentication.
-/

/-! ## JavaScript value semantics -/

/-- Truthiness of a nullable numeric field (`0`, `null` and `undefined` are
falsy in JavaScript). -/
def natTruthy : Option Nat → Bool
  | some n => n != 0
  | none => false

/-- `a || b` on nullable numeric fields: the left value if truthy, otherwise
the right value verbatim. -/
def jsOrNat (a b : Option Nat) : Option Nat :=
  if natTruthy a then a else b

/-- Truthiness of a nullable string field (`""`, `null`, `undefined` falsy). -/
def strTruthy : Option String → Bool
  | some s => s != ""
  | none => false

/-- The single-quote character, kept out of string literals. -/
def sqc : Char := Char.ofNat 39

/-- The backslash character. -/
def bsc : Char := Char.ofNat 92

/-- A one-character string holding a single quote. -/
def sqs : String := String.mk [sqc]

/-- The global single-quote replacement of `escapeForShell` in
`reply-pr-comments.js`: every single quote becomes the four characters quote,
backslash, quote, quote. -/
def escapeForShell (s : String) : String :=
  String.mk (s.data.flatMap fun c =>
    if c = sqc then [sqc, bsc, sqc, sqc] else [c])

/-- Drop the first occurrence of `pat` from a character list; helper for
JavaScript `String.prototype.replace(pat, "")` with a literal pattern. -/
def dropFirstOcc (pat : List Char) : List Char → List Char
  | [] => []
  | c :: rest =>
    if pat.isPrefixOf (c :: rest) then (c :: rest).drop pat.length
    else c :: dropFirstOcc pat rest

/-- JavaScript `s.replace(pat, "")` for a literal pattern: removes the first
occurrence of `pat` anywhere in `s` (not only as a prefix). -/
def jsReplaceOnce (pat s : String) : String :=
  String.mk (dropFirstOcc pat.data s.data)

/-- JavaScript `String.prototype.trim` on the character level (the built-in
`String.trim` does not reduce in the kernel): drop whitespace from both
ends. -/
def jsTrim (s : String) : String :=
  String.mk ((s.data.dropWhile Char.isWhitespace).reverse.dropWhile
    Char.isWhitespace).reverse

/-! ### JavaScript objects keyed by numeric ids

`allReviewComments`, `result.reviews`, `result.orphanedComments` and
`result.issueComments` are JavaScript objects keyed by remote-assigned numeric
ids.  They are modelled as association lists.  Assigning to an existing key
replaces the stored value in place; assigning a fresh key appends. -/

/-- `m[k] = v` on an object keyed by numeric ids. -/
def jsObjSet {α : Type} (m : List (Nat × α)) (k : Nat) (v : α) : List (Nat × α) :=
  if m.any (fun p => p.1 == k) then
    m.map (fun p => if p.1 == k then (k, v) else p)
  else m ++ [(k, v)]

/-- In-place update of the value stored at key `k` (no-op on a missing key). -/
def jsUpdate {α : Type} (m : List (Nat × α)) (k : Nat) (f : α → α) :
    List (Nat × α) :=
  m.map (fun p => if p.1 == k then (p.1, f p.2) else p)

/-- `m[k]`, as an option. -/
def jsLookup {α : Type} (m : List (Nat × α)) (k : Nat) : Option α :=
  (m.find? (fun p => p.1 == k)).map (·.2)

/-- Truthiness of `m[k]` (the stored values are always objects, hence truthy
exactly when the key is present). -/
def jsHasKey {α : Type} (m : List (Nat × α)) (k : Nat) : Bool :=
  m.any (fun p => p.1 == k)

/-- `Object.entries` / `Object.keys` enumeration order for an object whose
keys are integer-like strings: ascending numeric key order, regardless of
insertion order.  Modelled as a stable insertion of each key. -/
def insNatAsc (x : Nat) : List Nat → List Nat
  | [] => [x]
  | y :: l => if x ≤ y then x :: y :: l else y :: insNatAsc x l

/-- Sort a list of numeric keys ascending (JavaScript integer-key enumeration
order). -/
def sortNatAsc : List Nat → List Nat
  | [] => []
  | x :: l => insNatAsc x (sortNatAsc l)

/-! ## Reply Dispatcher (`reply-pr-comments.js`) -/

/-- The `id` field of a reply request as it arrives from JSON: a number, a
string, or absent/null. -/
inductive JSId where
  | absent
  | num (n : Nat)
  | str (s : String)
deriving DecidableEq

/-- JavaScript truthiness of the `id` value (`0`, `""`, `null`, `undefined`
are falsy). -/
def JSId.truthy : JSId → Bool
  | .absent => false
  | .num n => n != 0
  | .str s => s != ""

/-- `String(id)` / template-literal interpolation of the `id` value. -/
def JSId.toDisplay : JSId → String
  | .absent => "undefined"
  | .num n => toString n
  | .str s => s

/-- One reply request `{id, body, type}` (body and type may be missing). -/
structure ReplyReq where
  id : JSId
  body : Option String
  type : Option String
deriving DecidableEq

/-- The validation test of `main`: `!reply.id || !reply.body` rejects the
request.  `reqValid` is the complement. -/
def reqValid (r : ReplyReq) : Bool :=
  r.id.truthy && strTruthy r.body

/-- The in-place kind defaulting `main` performs before dispatch: a falsy
`type` field is replaced by `inline`. -/
def defType (r : ReplyReq) : ReplyReq :=
  if strTruthy r.type then r else { r with type := some "inline" }

/-- Repository, PR number and the `--dry-run` / `--delay` options: the
configuration the dispatch loop runs under. -/
structure DispatchConfig where
  repo : String
  prNumber : Nat
  dryRun : Bool
  delayMs : Nat
deriving DecidableEq

/-- The marker string of synthetic review-body identities. -/
def rbMarker : String := "review-body-"

/-- The thread-reply command of `postReply`:
`gh api repos/R/pulls/N/comments/C/replies -f body=<quoted B>`. -/
def threadReplyCmd (cfg : DispatchConfig) (commentId body : String) : String :=
  "gh api repos/" ++ cfg.repo ++ "/pulls/" ++ toString cfg.prNumber ++
    "/comments/" ++ commentId ++ "/replies -f body=" ++ sqs ++
    escapeForShell body ++ sqs

/-- The new-conversation-comment command of `postReply`:
`gh api repos/R/issues/N/comments -f body=<quoted B>`. -/
def issueCommentCmd (cfg : DispatchConfig) (body : String) : String :=
  "gh api repos/" ++ cfg.repo ++ "/issues/" ++ toString cfg.prNumber ++
    "/comments -f body=" ++ sqs ++ escapeForShell body ++ sqs

/-- The routing switch of `postReply`: given the (already defaulted) request,
the command that would be executed and its description.  Note that only the
`inline`/`inline-reply` branch strips the review-body marker from the
identifier; the final (unrecognized-type) branch interpolates the identifier
verbatim. -/
def postRoute (cfg : DispatchConfig) (r : ReplyReq) : String × String :=
  let b := r.body.getD ""
  if r.type = some "inline" ∨ r.type = some "inline-reply" then
    let commentId := jsReplaceOnce rbMarker r.id.toDisplay
    (threadReplyCmd cfg commentId b, "Reply to inline comment #" ++ commentId)
  else if r.type = some "conversation" ∨ r.type = some "review-body" then
    (issueCommentCmd cfg b,
      "New conversation comment (re: " ++ r.type.getD "" ++ " #" ++
        r.id.toDisplay ++ ")")
  else
    (threadReplyCmd cfg r.id.toDisplay b,
      "Reply to comment #" ++ r.id.toDisplay)

/-- Outcome of one `exec(cmd)` call against the remote system: a failure with
stderr text, a JSON response carrying an optional `html_url`, or output that
is not valid JSON. -/
inductive NetRes where
  | failure (stderr : String)
  | okParsed (htmlUrl : Option String)
  | okRaw (raw : String)
deriving DecidableEq

/-- The value `postReply` resolves to. -/
inductive PostOutcome where
  | dry (description cmd : String)
  | posted (description : String) (url : Option String)
  | postedRaw (description raw : String)
  | failedPost (description cmd error : String)
deriving DecidableEq

/-- `postReply`: route, then either return the dry-run preview or interpret
the network result. -/
def postReply (cfg : DispatchConfig) (r : ReplyReq) (net : NetRes) :
    PostOutcome :=
  let rt := postRoute cfg r
  if cfg.dryRun then .dry rt.2 rt.1
  else
    match net with
    | .failure e => .failedPost rt.2 rt.1 e
    | .okParsed u => .posted rt.2 u
    | .okRaw raw => .postedRaw rt.2 raw

/-- Observable side effects of the dispatch loop: an `exec` of a command, or
the inter-request `sleep`. -/
inductive DispatchEvent where
  | netCall (cmd : String)
  | slept (ms : Nat)
deriving DecidableEq

/-- The error message recorded for a request that fails validation. -/
def missingMsg : String := "Missing id or body"

/-- The dispatch loop of `main`, from index `i` with `total` requests overall
(the index and total drive the `i < replies.length - 1` delay guard).  The
network oracle is indexed by request position.  Returns the `success` and
`failed` collections and the event trace. -/
def runFrom (cfg : DispatchConfig) (net : Nat → NetRes) (total : Nat) :
    Nat → List ReplyReq →
      List (ReplyReq × PostOutcome) × List (ReplyReq × String) ×
        List DispatchEvent
  | _, [] => ([], [], [])
  | i, r :: rest =>
    if reqValid r then
      let r1 := defType r
      let po := postReply cfg r1 (net i)
      let evs :=
        (if cfg.dryRun then [] else [.netCall (postRoute cfg r1).1]) ++
          (if i + 1 < total ∧ ¬cfg.dryRun then [.slept cfg.delayMs] else [])
      let acc := runFrom cfg net total (i + 1) rest
      match po with
      | .failedPost _ _ err => (acc.1, (r1, err) :: acc.2.1, evs ++ acc.2.2)
      | po => ((r1, po) :: acc.1, acc.2.1, evs ++ acc.2.2)
    else
      let acc := runFrom cfg net total (i + 1) rest
      (acc.1, (r, missingMsg) :: acc.2.1, acc.2.2)

/-- Final result of one dispatcher run: the two ordered collections, the
event trace, and the process exit code. -/
structure DispatchResult where
  success : List (ReplyReq × PostOutcome)
  failed : List (ReplyReq × String)
  events : List DispatchEvent
  exitCode : Nat
deriving DecidableEq

/-- `main` of `reply-pr-comments.js` after input parsing: empty input exits 0
immediately; otherwise the loop runs to completion and the exit code is 1
exactly when some request failed. -/
def runMain (cfg : DispatchConfig) (net : Nat → NetRes)
    (replies : List ReplyReq) : DispatchResult :=
  if replies.isEmpty then ⟨[], [], [], 0⟩
  else
    let acc := runFrom cfg net replies.length 0 replies
    ⟨acc.1, acc.2.1, acc.2.2, if acc.2.1.length > 0 then 1 else 0⟩

/-- Per-item outcome of the dispatch loop (specification view): an invalid
request is recorded as failed without dispatch; a valid one is defaulted,
posted and partitioned on the result. -/
def itemOutcome (cfg : DispatchConfig) (net : Nat → NetRes) (i : Nat)
    (r : ReplyReq) : (ReplyReq × PostOutcome) ⊕ (ReplyReq × String) :=
  if reqValid r then
    let r1 := defType r
    match postReply cfg r1 (net i) with
    | .failedPost _ _ err => .inr (r1, err)
    | po => .inl (r1, po)
  else .inr (r, missingMsg)

/-- Per-item event trace of the dispatch loop (specification view): nothing
for an invalid request or in dry-run mode; otherwise the network call followed
by the pacing delay except after the last request. -/
def itemEvents (cfg : DispatchConfig) (total i : Nat) (r : ReplyReq) :
    List DispatchEvent :=
  if reqValid r ∧ ¬cfg.dryRun then
    .netCall (postRoute cfg (defType r)).1 ::
      (if i + 1 < total then [.slept cfg.delayMs] else [])
  else []

/-! ## Aggregator (`buildHierarchy` in `scripts/fetch-pr-comments.js`)

Raw inputs mirror the GitHub API JSON fields the script reads.  Creation and
update timestamps are modelled as naturals (ISO-8601 strings of valid dates
are order-isomorphic to their epoch values, which is what
`new Date(a.createdAt) - new Date(b.createdAt)` compares). -/

/-- One element of `GET /repos/R/pulls/N/comments` (an inline review
comment), restricted to the fields `buildHierarchy` reads. -/
structure RawReviewComment where
  id : Nat
  path : String
  line : Option Nat
  original_line : Option Nat
  side : Option String
  diff_hunk : String
  body : String
  user_login : Option String
  author_association : String
  created_at : Nat
  updated_at : Nat
  html_url : String
  in_reply_to_id : Option Nat
  pull_request_review_id : Option Nat
  commit_id : String
deriving DecidableEq

/-- One element of `GET /repos/R/pulls/N/reviews`. -/
structure RawReview where
  id : Nat
  user_login : Option String
  author_association : String
  state : String
  body : Option String
  submitted_at : Nat
  commit_id : String
  html_url : String
deriving DecidableEq

/-- One element of `GET /repos/R/issues/N/comments`. -/
structure RawIssueComment where
  id : Nat
  body : String
  user_login : Option String
  author_association : String
  created_at : Nat
  updated_at : Nat
  html_url : String
deriving DecidableEq

/-- An entry of the `allReviewComments` working index.  The `replies` object
of the script holds aliases of other index entries keyed by their numeric id;
the aliasing is made explicit by storing the keys (`replyIds`) and reading the
current index entry wherever the script dereferences the alias. -/
structure CommentData where
  id : Nat
  path : String
  line : Option Nat
  originalLine : Option Nat
  side : Option String
  diffHunk : String
  body : String
  author : Option String
  authorAssociation : String
  createdAt : Nat
  updatedAt : Nat
  htmlUrl : String
  inReplyToId : Option Nat
  pullRequestReviewId : Option Nat
  commitId : String
  isOnCurrentCommit : Bool
  replyIds : List Nat
  isReplyMark : Bool
deriving DecidableEq

/-- First-pass normalization of one raw inline comment (`allReviewComments[comment.id] = {...}`). -/
def initComment (headSha : Option String) (c : RawReviewComment) : CommentData :=
  { id := c.id
    path := c.path
    line := jsOrNat c.line c.original_line
    originalLine := c.original_line
    side := c.side
    diffHunk := c.diff_hunk
    body := c.body
    author := c.user_login
    authorAssociation := c.author_association
    createdAt := c.created_at
    updatedAt := c.updated_at
    htmlUrl := c.html_url
    inReplyToId := if natTruthy c.in_reply_to_id then c.in_reply_to_id else none
    pullRequestReviewId := c.pull_request_review_id
    commitId := c.commit_id
    isOnCurrentCommit := headSha == some c.commit_id
    replyIds := []
    isReplyMark := false }

/-- First pass: index every inline comment by its id. -/
def indexComments (headSha : Option String) (cs : List RawReviewComment) :
    List (Nat × CommentData) :=
  cs.foldl (fun m c => jsObjSet m c.id (initComment headSha c)) []

/-- The ids pushed to `topLevelComments` in the first pass: comments whose
`in_reply_to_id` is falsy. -/
def topLevelIds (cs : List RawReviewComment) : List Nat :=
  (cs.filter (fun c => !natTruthy c.in_reply_to_id)).map (·.id)

/-- The test of the second pass:
`comment.in_reply_to_id && allReviewComments[comment.in_reply_to_id]`. -/
def attachCond (m : List (Nat × CommentData)) (c : RawReviewComment) : Bool :=
  natTruthy c.in_reply_to_id && jsHasKey m (c.in_reply_to_id.getD 0)

/-- One step of the second pass: attach the comment to its parent entry
(`parent.replies[comment.id] = allReviewComments[comment.id]`) and set the
`_isReply` flag of the comment. -/
def attachReply (m : List (Nat × CommentData)) (c : RawReviewComment) :
    List (Nat × CommentData) :=
  if attachCond m c then
    jsUpdate
      (jsUpdate m (c.in_reply_to_id.getD 0) (fun d =>
        { d with replyIds :=
            if d.replyIds.contains c.id then d.replyIds
            else d.replyIds ++ [c.id] }))
      c.id (fun d => { d with isReplyMark := true })
  else m

/-- Second pass over all comments: build reply chains and count
`stats.totalReplies`. -/
def secondPass (m0 : List (Nat × CommentData)) (cs : List RawReviewComment) :
    List (Nat × CommentData) × Nat :=
  cs.foldl
    (fun acc c =>
      (attachReply acc.1 c, if attachCond acc.1 c then acc.2 + 1 else acc.2))
    (m0, 0)

/-- `review.body && review.body.trim().length > 0`. -/
def reviewHasBody (r : RawReview) : Bool :=
  match r.body with
  | some s => s != "" && (jsTrim s).length > 0
  | none => false

/-- A review entry of `result.reviews`.  The `comments` object owned by the
review holds aliases of index entries; its keys are stored. -/
structure ReviewNode where
  id : Nat
  author : Option String
  authorAssociation : String
  state : String
  body : String
  submittedAt : Nat
  commitId : String
  htmlUrl : String
  isOnCurrentCommit : Bool
  commentIds : List Nat
deriving DecidableEq

/-- `result.reviews[review.id] = {...}`. -/
def initReview (headSha : Option String) (r : RawReview) : ReviewNode :=
  { id := r.id
    author := r.user_login
    authorAssociation := r.author_association
    state := r.state
    body := r.body.getD ""
    submittedAt := r.submitted_at
    commitId := r.commit_id
    htmlUrl := r.html_url
    isOnCurrentCommit := headSha == some r.commit_id
    commentIds := [] }

/-- Identity of a flat-list entry: a native numeric comment id, or the
synthesized review-body identity (the string `review-body-<id>` in the
script; kept as a tagged value since a JSON number and a JSON string never
compare equal). -/
inductive FlatId where
  | num (n : Nat)
  | reviewBody (n : Nat)
deriving DecidableEq

/-- The string the script actually stores for a flat-list identity. -/
def FlatId.render : FlatId → String
  | .num n => toString n
  | .reviewBody n => rbMarker ++ toString n

/-- One entry of the flat `allComments` list, the union of the four entry
shapes the script pushes (absent fields are `none`). -/
structure FlatComment where
  id : FlatId
  type : String
  reviewId : Option Nat
  author : Option String
  authorAssociation : String
  body : String
  location : String
  path : Option String
  line : Option Nat
  diffHunk : Option String
  createdAt : Nat
  htmlUrl : String
  isReply : Bool
  parentId : Option Nat
  isOnCurrentCommit : Bool
  reviewState : Option String
  replyMethod : Option String
  replyApi : Option String
  replyCount : Option Nat
deriving DecidableEq

/-- The line part of a flat-entry location: the first truthy value among
`line` and `originalLine`, else a question mark. -/
def lineDisplay (line orig : Option Nat) : String :=
  match jsOrNat line orig with
  | some n => if n != 0 then toString n else "?"
  | none => "?"

/-- The reply-command template stored on inline flat entries:
`gh api repos/R/pulls/N/comments/C/replies -f body="YOUR_REPLY"`. -/
def replyApiStr (repo : String) (prNumber cid : Nat) : String :=
  "gh api repos/" ++ repo ++ "/pulls/" ++ toString prNumber ++ "/comments/" ++
    toString cid ++ "/replies -f body=\"YOUR_REPLY\""

/-- The reply-command template stored on conversation flat entries:
`gh api repos/R/issues/N/comments -f body="YOUR_REPLY"`. -/
def issueApiStr (repo : String) (prNumber : Nat) : String :=
  "gh api repos/" ++ repo ++ "/issues/" ++ toString prNumber ++
    "/comments -f body=\"YOUR_REPLY\""

/-- The review-body pseudo-comment pushed for a review with non-empty trimmed
body text. -/
def reviewBodyEntry (headSha : Option String) (r : RawReview) : FlatComment :=
  { id := .reviewBody r.id
    type := "review-body"
    reviewId := some r.id
    author := r.user_login
    authorAssociation := r.author_association
    body := r.body.getD ""
    location := "general"
    path := none
    line := none
    diffHunk := none
    createdAt := r.submitted_at
    htmlUrl := r.html_url
    isReply := false
    parentId := none
    isOnCurrentCommit := headSha == some r.commit_id
    reviewState := some r.state
    replyMethod := some "issue-comment"
    replyApi := none
    replyCount := none }

/-- The flat entry pushed for a top-level inline comment. -/
def inlineEntry (repo : String) (prNumber : Nat) (d : CommentData) :
    FlatComment :=
  { id := .num d.id
    type := "inline"
    reviewId := d.pullRequestReviewId
    author := d.author
    authorAssociation := d.authorAssociation
    body := d.body
    location := d.path ++ ":" ++ lineDisplay d.line d.originalLine
    path := some d.path
    line := jsOrNat d.line d.originalLine
    diffHunk := some d.diffHunk
    createdAt := d.createdAt
    htmlUrl := d.htmlUrl
    isReply := false
    parentId := none
    isOnCurrentCommit := d.isOnCurrentCommit
    reviewState := none
    replyMethod := none
    replyApi := some (replyApiStr repo prNumber d.id)
    replyCount := some d.replyIds.length }

/-- The flat entry pushed for a reply attached to the top-level comment with
id `parentId` (the reply command targets the thread root). -/
def replyEntry (repo : String) (prNumber : Nat) (d : CommentData)
    (parentId : Nat) : FlatComment :=
  { id := .num d.id
    type := "inline-reply"
    reviewId := d.pullRequestReviewId
    author := d.author
    authorAssociation := d.authorAssociation
    body := d.body
    location := d.path ++ ":" ++ lineDisplay d.line d.originalLine
    path := some d.path
    line := jsOrNat d.line d.originalLine
    diffHunk := none
    createdAt := d.createdAt
    htmlUrl := d.htmlUrl
    isReply := true
    parentId := some parentId
    isOnCurrentCommit := d.isOnCurrentCommit
    reviewState := none
    replyMethod := none
    replyApi := some (replyApiStr repo prNumber parentId)
    replyCount := none }

/-- The flat entry pushed for an issue (conversation) comment. -/
def convEntry (repo : String) (prNumber : Nat) (ic : RawIssueComment) :
    FlatComment :=
  { id := .num ic.id
    type := "conversation"
    reviewId := none
    author := ic.user_login
    authorAssociation := ic.author_association
    body := ic.body
    location := "general"
    path := none
    line := none
    diffHunk := none
    createdAt := ic.created_at
    htmlUrl := ic.html_url
    isReply := false
    parentId := none
    isOnCurrentCommit := true
    reviewState := none
    replyMethod := some "issue-comment"
    replyApi := some (issueApiStr repo prNumber)
    replyCount := none }

/-- The reviews loop: build `result.reviews` and push the review-body
pseudo-comments (in review order) onto the flat list. -/
def reviewsPhase (headSha : Option String) (rs : List RawReview) :
    List (Nat × ReviewNode) × List FlatComment :=
  rs.foldl
    (fun acc r =>
      (jsObjSet acc.1 r.id (initReview headSha r),
        if reviewHasBody r then acc.2 ++ [reviewBodyEntry headSha r]
        else acc.2))
    ([], [])

/-- The reply entries emitted under one top-level comment:
`Object.entries(comment.replies)` enumerates the numeric keys ascending, and
each value aliases the current index entry. -/
def replyEntriesOf (repo : String) (prNumber : Nat)
    (m : List (Nat × CommentData)) (d : CommentData) : List FlatComment :=
  (sortNatAsc d.replyIds).filterMap
    (fun rid => (jsLookup m rid).map (fun rd => replyEntry repo prNumber rd d.id))

/-- The flat entries one `topLevelComments` element contributes: the
top-level entry followed by its reply entries.  A missing index entry cannot
occur (every id in `topLevelComments` was indexed in the first pass). -/
def topContrib (repo : String) (prNumber : Nat)
    (m : List (Nat × CommentData)) (cid : Nat) : List FlatComment :=
  match jsLookup m cid with
  | none => []
  | some d => inlineEntry repo prNumber d :: replyEntriesOf repo prNumber m d

/-- The assignment loop over `topLevelComments`: nest each top-level comment
under its owning review or the orphan set, and push its flat entries. -/
def assignPhase (repo : String) (prNumber : Nat)
    (m : List (Nat × CommentData)) (tl : List Nat)
    (rm0 : List (Nat × ReviewNode)) :
    List (Nat × ReviewNode) × List (Nat × CommentData) × List FlatComment :=
  tl.foldl
    (fun acc cid =>
      match jsLookup m cid with
      | none => acc
      | some d =>
        let rid := d.pullRequestReviewId.getD 0
        let resolved := natTruthy d.pullRequestReviewId && jsHasKey acc.1 rid
        ((if resolved then
            jsUpdate acc.1 rid
              (fun rn => { rn with commentIds := rn.commentIds ++ [cid] })
          else acc.1),
          (if resolved then acc.2.1 else jsObjSet acc.2.1 cid d),
          acc.2.2 ++ topContrib repo prNumber m cid))
    (rm0, [], [])

/-- An entry of `result.issueComments`. -/
structure IssueNode where
  id : Nat
  body : String
  author : Option String
  authorAssociation : String
  createdAt : Nat
  updatedAt : Nat
  htmlUrl : String
deriving DecidableEq

/-- The issue-comments loop: build `result.issueComments` and push the
conversation flat entries. -/
def issuePhase (repo : String) (prNumber : Nat) (ics : List RawIssueComment) :
    List (Nat × IssueNode) × List FlatComment :=
  ics.foldl
    (fun acc ic =>
      (jsObjSet acc.1 ic.id
        ⟨ic.id, ic.body, ic.user_login, ic.author_association, ic.created_at,
          ic.updated_at, ic.html_url⟩,
        acc.2 ++ [convEntry repo prNumber ic]))
    ([], [])

/-- Stable insertion step of the final `allComments.sort`
(`Array.prototype.sort` is stable in Node; the comparator is the creation
timestamp). -/
def insCA (x : FlatComment) : List FlatComment → List FlatComment
  | [] => [x]
  | y :: l => if x.createdAt ≤ y.createdAt then x :: y :: l else y :: insCA x l

/-- Stable sort of the flat list by creation timestamp. -/
def sortCA : List FlatComment → List FlatComment
  | [] => []
  | x :: l => insCA x (sortCA l)

/-- `result.stats`. -/
structure Stats where
  totalReviews : Nat
  totalReviewBodies : Nat
  totalReviewComments : Nat
  totalIssueComments : Nat
  totalReplies : Nat
  totalAllComments : Nat
deriving DecidableEq

/-- The normalized model `buildHierarchy` returns (the presentational `meta`
and `pr` blocks carry no aggregation logic and are out of the model). -/
structure HierarchyResult where
  reviews : List (Nat × ReviewNode)
  issueComments : List (Nat × IssueNode)
  orphanedComments : List (Nat × CommentData)
  allComments : List FlatComment
  stats : Stats
deriving DecidableEq

/-- The flat list as built, before the final sort: review bodies, then each
top-level inline comment followed by its replies, then issue comments. -/
def presortFlat (repo : String) (prNumber : Nat) (headSha : Option String)
    (reviews : List RawReview) (cs : List RawReviewComment)
    (ics : List RawIssueComment) : List FlatComment :=
  (reviewsPhase headSha reviews).2 ++
    (assignPhase repo prNumber (secondPass (indexComments headSha cs) cs).1
      (topLevelIds cs) (reviewsPhase headSha reviews).1).2.2 ++
    (issuePhase repo prNumber ics).2

/-- `buildHierarchy(repo, prNumber, prOverview, reviews, reviewComments,
issueComments)`; `headSha` is `prOverview.head?.sha`. -/
def buildHierarchy (repo : String) (prNumber : Nat) (headSha : Option String)
    (reviews : List RawReview) (cs : List RawReviewComment)
    (ics : List RawIssueComment) : HierarchyResult :=
  let m1 := (secondPass (indexComments headSha cs) cs).1
  let nReplies := (secondPass (indexComments headSha cs) cs).2
  let tl := topLevelIds cs
  let rp := reviewsPhase headSha reviews
  let ap := assignPhase repo prNumber m1 tl rp.1
  let ip := issuePhase repo prNumber ics
  let sorted := sortCA (presortFlat repo prNumber headSha reviews cs ics)
  { reviews := ap.1
    issueComments := ip.1
    orphanedComments := ap.2.1
    allComments := sorted
    stats :=
      { totalReviews := reviews.length
        totalReviewBodies := (reviews.filter reviewHasBody).length
        totalReviewComments := tl.length
        totalIssueComments := ics.length
        totalReplies := nReplies
        totalAllComments := sorted.length } }

/-! ## Concrete inputs used by witnesses and counterexamples -/

/-- A raw inline comment with representative metadata. -/
def mkRC (id : Nat) (irt : Option Nat) (prr : Option Nat) (t : Nat) :
    RawReviewComment :=
  ⟨id, "f.txt", some 1, some 1, some "RIGHT", "hunk", "b", some "alice",
    "MEMBER", t, t, "u", irt, prr, "sha"⟩

/-- A raw review with the given body. -/
def mkRev (id : Nat) (body : Option String) (t : Nat) : RawReview :=
  ⟨id, some "bob", "MEMBER", "COMMENTED", body, t, "sha", "u"⟩

/-- A raw issue comment. -/
def mkIC (id : Nat) (t : Nat) : RawIssueComment :=
  ⟨id, "ic", some "carol", "NONE", t, t, "u"⟩

/-- A reply-to-reply chain: comment 2 answers comment 1, comment 3 answers
comment 2. -/
def csChain : List RawReviewComment :=
  [mkRC 1 none none 10, mkRC 2 (some 1) none 11, mkRC 3 (some 2) none 12]

/-- Two top-level comments and one reply, with a creation-time tie between
the reply (id 3, fetched last) and the second top-level comment (id 2). -/
def csTies : List RawReviewComment :=
  [mkRC 1 none (some 9) 10, mkRC 2 none (some 9) 20, mkRC 3 (some 1) (some 9) 20]

/-- A single comment whose `in_reply_to_id` points at an id that was never
fetched. -/
def csDangling : List RawReviewComment := [mkRC 1 (some 999) none 10]

/-- Witness inputs: one review with body, one top-level comment with one
reply, one issue comment. -/
def wReviews : List RawReview := [mkRev 5 (some "LGTM") 5]

/-- Witness comments: a top-level comment owned by review 5 and its reply. -/
def wComments : List RawReviewComment :=
  [mkRC 1 none (some 5) 10, mkRC 2 (some 1) (some 5) 11]

/-- Witness issue comments. -/
def wIssues : List RawIssueComment := [mkIC 7 20]

/-- Witness comment owned by a review id that was never fetched. -/
def wOrphan : List RawReviewComment := [mkRC 6 none (some 77) 10]

/-- A dry-run configuration. -/
def cfgDry : DispatchConfig := ⟨"o/r", 5, true, 100⟩

/-- A live (non-dry-run) configuration. -/
def cfgLive : DispatchConfig := ⟨"o/r", 5, false, 100⟩

/-- A network oracle whose responses are never needed / always succeed. -/
def netNull : Nat → NetRes := fun _ => .okRaw ""

/-- The example input of the specification:
`[{id:111,body:"Fixed",type:"inline"},{id:"review-body-9",body:"Thanks",type:"review-body"}]`. -/
def exampleReplies : List ReplyReq :=
  [⟨.num 111, some "Fixed", some "inline"⟩,
    ⟨.str "review-body-9", some "Thanks", some "review-body"⟩]

/-- A request whose kind is not one of the four recognized values and whose
identifier carries the review-body marker. -/
def reqLegacy : ReplyReq := ⟨.str "review-body-7", some "x", some "legacy"⟩

/-- The same request with kind `inline`. -/
def reqInlineTwin : ReplyReq := ⟨.str "review-body-7", some "x", some "inline"⟩

/-- A request with an absent identifier. -/
def reqNoId : ReplyReq := ⟨.absent, some "hi", none⟩

/-- A request whose identifier is the number 0 (present but falsy). -/
def reqZeroId : ReplyReq := ⟨.num 0, some "hi", some "inline"⟩

/-! ## Generic lemmas: stable sort and sum-type partitions -/

theorem insCA_perm (x : FlatComment) (l : List FlatComment) :
    (insCA x l).Perm (x :: l) := by
  induction l with
  | nil => simp [insCA]
  | cons y l ih =>
    simp only [insCA]
    split
    · exact .refl _
    · exact (ih.cons y).trans (List.Perm.swap x y l)

theorem sortCA_perm (l : List FlatComment) : (sortCA l).Perm l := by
  induction l with
  | nil => simp [sortCA]
  | cons x l ih => exact (insCA_perm x (sortCA l)).trans (ih.cons x)

theorem insCA_sorted (x : FlatComment) (l : List FlatComment)
    (h : l.Pairwise (fun a b => a.createdAt ≤ b.createdAt)) :
    (insCA x l).Pairwise (fun a b => a.createdAt ≤ b.createdAt) := by
  induction l with
  | nil => simp [insCA]
  | cons y l ih =>
    simp only [insCA]
    split
    · rename_i hxy
      refine List.Pairwise.cons ?_ h
      intro b hb
      rcases List.mem_cons.mp hb with rfl | hb
      · exact hxy
      · exact hxy.trans ((List.pairwise_cons.mp h).1 b hb)
    · rename_i hxy
      have hyx : y.createdAt ≤ x.createdAt := Nat.le_of_not_le hxy
      refine List.Pairwise.cons ?_ (ih (List.Pairwise.of_cons h))
      intro b hb
      have hb' : b = x ∨ b ∈ l :=
        List.mem_cons.mp ((insCA_perm x l).mem_iff.mp hb)
      rcases hb' with rfl | hb'
      · exact hyx
      · exact (List.pairwise_cons.mp h).1 b hb'

theorem sortCA_sorted (l : List FlatComment) :
    (sortCA l).Pairwise (fun a b => a.createdAt ≤ b.createdAt) := by
  induction l with
  | nil => simp [sortCA]
  | cons x l ih => exact insCA_sorted x (sortCA l) ih

theorem filter_insCA (x : FlatComment) (l : List FlatComment) (t : Nat) :
    (insCA x l).filter (fun e => e.createdAt == t) =
      if x.createdAt == t then
        x :: l.filter (fun e => e.createdAt == t)
      else l.filter (fun e => e.createdAt == t) := by
  induction l with
  | nil =>
    by_cases hx : x.createdAt = t <;> simp [insCA, List.filter_cons, hx]
  | cons y l ih =>
    simp only [insCA]
    split
    · simp [List.filter_cons]
    · rename_i hxy
      have hyx : y.createdAt < x.createdAt := Nat.lt_of_not_le hxy
      by_cases hx : x.createdAt = t
      · have hy : ¬(y.createdAt = t) := by omega
        simp [List.filter_cons, hx, hy, ih]
      · simp [List.filter_cons, hx, ih]

theorem filter_sortCA (l : List FlatComment) (t : Nat) :
    (sortCA l).filter (fun e => e.createdAt == t) =
      l.filter (fun e => e.createdAt == t) := by
  induction l with
  | nil => simp [sortCA]
  | cons x l ih =>
    simp only [sortCA]
    rw [filter_insCA, ih]
    simp [List.filter_cons]

theorem length_filterMap_sum {α β γ : Type} (f : α → β ⊕ γ) (l : List α) :
    (l.filterMap (fun a => (f a).getLeft?)).length +
      (l.filterMap (fun a => (f a).getRight?)).length = l.length := by
  induction l with
  | nil => simp
  | cons a l ih =>
    cases h : f a <;> simp [List.filterMap_cons, h] <;> omega

/-! ## Dispatcher: loop characterization -/

theorem runFrom_eq (cfg : DispatchConfig) (net : Nat → NetRes) (total : Nat) :
    ∀ (rs : List ReplyReq) (i : Nat),
      runFrom cfg net total i rs =
        ((List.enumFrom i rs).filterMap
            (fun p => (itemOutcome cfg net p.1 p.2).getLeft?),
          (List.enumFrom i rs).filterMap
            (fun p => (itemOutcome cfg net p.1 p.2).getRight?),
          (List.enumFrom i rs).flatMap (fun p => itemEvents cfg total p.1 p.2)) := by
  intro rs
  induction rs with
  | nil => intro i; simp [runFrom, List.enumFrom]
  | cons r rs ih =>
    intro i
    by_cases hv : reqValid r
    · cases hpo : postReply cfg (defType r) (net i) <;>
        simp [runFrom, List.enumFrom, hv, hpo, ih (i + 1), itemOutcome,
          itemEvents, Sum.getLeft?, Sum.getRight?] <;>
        by_cases hd : cfg.dryRun <;> simp [hd]
    · simp [runFrom, List.enumFrom, hv, ih (i + 1), itemOutcome, itemEvents,
        Sum.getLeft?, Sum.getRight?]

theorem reqValid_defType (r : ReplyReq) : reqValid (defType r) = reqValid r := by
  unfold defType
  split <;> rfl

theorem runMain_eq (cfg : DispatchConfig) (net : Nat → NetRes)
    (replies : List ReplyReq) :
    runMain cfg net replies =
      ⟨replies.enum.filterMap (fun p => (itemOutcome cfg net p.1 p.2).getLeft?),
        replies.enum.filterMap (fun p => (itemOutcome cfg net p.1 p.2).getRight?),
        replies.enum.flatMap (fun p => itemEvents cfg replies.length p.1 p.2),
        if (replies.enum.filterMap
              (fun p => (itemOutcome cfg net p.1 p.2).getRight?)).length > 0
        then 1 else 0⟩ := by
  unfold runMain
  cases replies with
  | nil => simp [List.enum]
  | cons r rs =>
    rw [if_neg (by simp)]
    rw [runFrom_eq cfg net (r :: rs).length (r :: rs) 0]
    rfl

theorem runMain_counts (cfg : DispatchConfig) (net : Nat → NetRes)
    (replies : List ReplyReq) :
    (runMain cfg net replies).success.length +
      (runMain cfg net replies).failed.length = replies.length := by
  rw [runMain_eq]
  have h := length_filterMap_sum
    (fun p : Nat × ReplyReq => itemOutcome cfg net p.1 p.2) replies.enum
  simpa [List.enum_length] using h

theorem itemOutcome_invalid {cfg : DispatchConfig} {net : Nat → NetRes}
    {i : Nat} {r : ReplyReq} (h : reqValid r = false) :
    itemOutcome cfg net i r = .inr (r, missingMsg) := by
  simp [itemOutcome, h]

theorem mem_failed_of_invalid (cfg : DispatchConfig) (net : Nat → NetRes)
    (replies : List ReplyReq) (i : Nat) (r : ReplyReq) (hi : i < replies.length)
    (hr : replies[i] = r) (h : reqValid r = false) :
    (r, missingMsg) ∈ (runMain cfg net replies).failed := by
  rw [runMain_eq]
  refine List.mem_filterMap.mpr ⟨(i, r), ?_, ?_⟩
  · have hlen : i < replies.enum.length := by simpa [List.enum_length] using hi
    have hget : replies.enum[i] = (i, r) := by
      rw [List.getElem_enum]
      exact congrArg (Prod.mk i) hr
    exact hget ▸ List.getElem_mem hlen
  · rw [itemOutcome_invalid h]
    rfl

theorem success_all_valid (cfg : DispatchConfig) (net : Nat → NetRes)
    (replies : List ReplyReq) :
    ∀ q ∈ (runMain cfg net replies).success, reqValid q.1 = true := by
  rw [runMain_eq]
  intro q hq
  rcases List.mem_filterMap.mp hq with ⟨p, _, he⟩
  by_cases hv : reqValid p.2
  · simp only [itemOutcome, hv, if_true] at he
    cases hpo : postReply cfg (defType p.2) (net p.1) <;> rw [hpo] at he <;>
      simp [Sum.getLeft?] at he <;> (subst he; simp [reqValid_defType, hv])
  · rw [itemOutcome_invalid (by simpa using hv)] at he
    simp [Sum.getLeft?] at he

theorem runFrom_dry (cfg : DispatchConfig) (net : Nat → NetRes) (total : Nat)
    (hdry : cfg.dryRun = true) :
    ∀ (rs : List ReplyReq) (i : Nat), (∀ r ∈ rs, reqValid r = true) →
      runFrom cfg net total i rs =
        (rs.map (fun r =>
          (defType r,
            PostOutcome.dry (postRoute cfg (defType r)).2
              (postRoute cfg (defType r)).1)), [], []) := by
  intro rs
  induction rs with
  | nil => intro i _; simp [runFrom]
  | cons r rs ih =>
    intro i h
    have hv : reqValid r = true := h r (by simp)
    have ih' := ih (i + 1) (fun x hx => h x (by simp [hx]))
    simp [runFrom, hv, postReply, hdry, ih']

theorem runMain_dry (cfg : DispatchConfig) (net : Nat → NetRes)
    (replies : List ReplyReq) (hdry : cfg.dryRun = true)
    (h : ∀ r ∈ replies, reqValid r = true) :
    runMain cfg net replies =
      ⟨replies.map (fun r =>
          (defType r,
            PostOutcome.dry (postRoute cfg (defType r)).2
              (postRoute cfg (defType r)).1)), [], [], 0⟩ := by
  unfold runMain
  cases replies with
  | nil => simp
  | cons r rs =>
    rw [if_neg (by simp)]
    rw [runFrom_dry cfg net (r :: rs).length hdry (r :: rs) 0 h]
    rfl

/-! ## Claim theorems: Reply Dispatcher -/

/-- C5: given N reply requests, the dispatch loop produces exactly N outcomes,
partitioned into the succeeded and failed collections; each collection lists
its items in input order (both are the order-preserving projections of the
per-item outcome sequence), a failing item never aborts the remaining
sequence (the characterization holds for every network oracle), and the
process exit code is non-zero exactly when the failed collection is
non-empty. -/
theorem dispatch_completeness (cfg : DispatchConfig) (net : Nat → NetRes)
    (replies : List ReplyReq) :
    (runMain cfg net replies).success =
        replies.enum.filterMap (fun p => (itemOutcome cfg net p.1 p.2).getLeft?) ∧
      (runMain cfg net replies).failed =
        replies.enum.filterMap (fun p => (itemOutcome cfg net p.1 p.2).getRight?) ∧
      (runMain cfg net replies).success.length +
          (runMain cfg net replies).failed.length = replies.length ∧
      ((runMain cfg net replies).exitCode ≠ 0 ↔
        (runMain cfg net replies).failed ≠ []) := by
  refine ⟨by rw [runMain_eq], by rw [runMain_eq], runMain_counts cfg net replies, ?_⟩
  rw [runMain_eq]
  constructor
  · intro hne
    simp only [ne_eq] at hne ⊢
    intro hnil
    rw [hnil] at hne
    simp at hne
  · intro hne
    have : (replies.enum.filterMap
        (fun p => (itemOutcome cfg net p.1 p.2).getRight?)).length > 0 := by
      cases hl : replies.enum.filterMap
          (fun p => (itemOutcome cfg net p.1 p.2).getRight?) with
      | nil => exact absurd hl hne
      | cons a l => simp
    simp [this]

/-- C5 witness: the two-request example yields two outcomes in total. -/
theorem dispatch_completeness_inst :
    (runMain cfgLive netNull exampleReplies).success.length +
      (runMain cfgLive netNull exampleReplies).failed.length = 2 := by
  have h := dispatch_completeness cfgLive netNull exampleReplies
  simpa using h.2.2.1

/-- C6: a reply request whose identifier or body is missing (falsy) is
rejected before dispatch with the missing-field outcome: it is recorded
(paired with that outcome) in the failed collection, it contributes no event
(in particular no network call), the global event trace is exactly the
concatenation of the per-item traces, no entry of the success collection is
invalid (so the rejected request never counts toward the success tally), and
every other request still receives its outcome (success and failed lengths
add up to the input length). -/
theorem dispatch_validation (cfg : DispatchConfig) (net : Nat → NetRes)
    (replies : List ReplyReq) (i : Nat) (r : ReplyReq) (hi : i < replies.length)
    (hr : replies[i] = r) (hinv : reqValid r = false) :
    (r, missingMsg) ∈ (runMain cfg net replies).failed ∧
      itemEvents cfg replies.length i r = [] ∧
      (runMain cfg net replies).events =
        replies.enum.flatMap (fun p => itemEvents cfg replies.length p.1 p.2) ∧
      (∀ q ∈ (runMain cfg net replies).success, reqValid q.1 = true) ∧
      (runMain cfg net replies).success.length +
        (runMain cfg net replies).failed.length = replies.length := by
  refine ⟨mem_failed_of_invalid cfg net replies i r hi hr hinv, ?_,
    by rw [runMain_eq], success_all_valid cfg net replies,
    runMain_counts cfg net replies⟩
  simp [itemEvents, hinv]

/-- C6 witness: a request with an absent id is recorded as failed with the
missing-field message and produces no event. -/
theorem dispatch_validation_inst :
    (reqNoId, missingMsg) ∈ (runMain cfgLive netNull [reqNoId]).failed ∧
      itemEvents cfgLive 1 0 reqNoId = [] := by
  have h := dispatch_validation cfgLive netNull [reqNoId] 0 reqNoId
    (by decide) (by decide) (by decide)
  exact ⟨h.1, h.2.1⟩

/-- C10: the presence check of the dispatcher is a JavaScript falsiness check: a
request whose identifier is the number 0, or whose body is the empty string,
fails validation (even though the field is present), is recorded as failed
with the missing-field outcome, contributes no event (so it is never sent),
and never appears in the success collection. -/
theorem falsy_presence_check (cfg : DispatchConfig) (net : Nat → NetRes)
    (replies : List ReplyReq) (i : Nat) (r : ReplyReq) (hi : i < replies.length)
    (hr : replies[i] = r) (h : r.id = JSId.num 0 ∨ r.body = some "") :
    reqValid r = false ∧
      (r, missingMsg) ∈ (runMain cfg net replies).failed ∧
      itemEvents cfg replies.length i r = [] ∧
      (∀ q ∈ (runMain cfg net replies).success, reqValid q.1 = true) := by
  have hinv : reqValid r = false := by
    rcases h with h | h <;> simp [reqValid, JSId.truthy, strTruthy, h]
  refine ⟨hinv, mem_failed_of_invalid cfg net replies i r hi hr hinv, ?_,
    success_all_valid cfg net replies⟩
  simp [itemEvents, hinv]

/-- C10 witness: the request with id 0 is rejected as missing. -/
theorem falsy_presence_check_inst :
    reqValid reqZeroId = false ∧
      (reqZeroId, missingMsg) ∈ (runMain cfgLive netNull [reqZeroId]).failed := by
  have h := falsy_presence_check cfgLive netNull [reqZeroId] 0 reqZeroId
    (by decide) (by decide) (Or.inl rfl)
  exact ⟨h.1, h.2.1⟩

/-- C9: in dry-run mode, for every input of valid requests the dispatcher
performs no network call and no inter-request delay (empty event trace),
fails nothing, exits 0, and every outcome is a success carrying the exact
command routing/formatting would have produced; in particular the two-item
example input yields two success outcomes, the first routed to the
thread-reply endpoint for id 111 and the second to the conversation
endpoint. -/
theorem dry_run_behavior (cfg : DispatchConfig) (net : Nat → NetRes)
    (hdry : cfg.dryRun = true) :
    (∀ replies, (∀ r ∈ replies, reqValid r = true) →
        (runMain cfg net replies).events = [] ∧
        (runMain cfg net replies).failed = [] ∧
        (runMain cfg net replies).exitCode = 0 ∧
        (runMain cfg net replies).success =
          replies.map (fun r =>
            (defType r,
              PostOutcome.dry (postRoute cfg (defType r)).2
                (postRoute cfg (defType r)).1))) ∧
      (runMain cfgDry net exampleReplies).success =
        [(⟨.num 111, some "Fixed", some "inline"⟩,
          .dry "Reply to inline comment #111"
            ("gh api repos/o/r/pulls/5/comments/111/replies -f body=" ++
              sqs ++ "Fixed" ++ sqs)),
          (⟨.str "review-body-9", some "Thanks", some "review-body"⟩,
          .dry "New conversation comment (re: review-body #review-body-9)"
            ("gh api repos/o/r/issues/5/comments -f body=" ++ sqs ++
              "Thanks" ++ sqs))] ∧
      (runMain cfgDry net exampleReplies).events = [] := by
  refine ⟨?_, ?_, ?_⟩
  · intro replies h
    rw [runMain_dry cfg net replies hdry h]
    exact ⟨rfl, rfl, rfl, rfl⟩
  · rw [runMain_dry cfgDry net exampleReplies rfl (by decide)]
    decide
  · rw [runMain_dry cfgDry net exampleReplies rfl (by decide)]

/-- C9 witness: the dry-run guarantees at the example input. -/
theorem dry_run_behavior_inst :
    (runMain cfgDry netNull exampleReplies).events = [] ∧
      (runMain cfgDry netNull exampleReplies).failed = [] ∧
      (runMain cfgDry netNull exampleReplies).success.length = 2 := by
  have h := dry_run_behavior cfgDry netNull rfl
  have h1 := h.1 exampleReplies (by decide)
  exact ⟨h1.1, h1.2.1, by rw [h1.2.2.2]; rfl⟩

/-- C3 (amended): after the kind defaulting of the dispatcher, kind `inline` or
`inline-reply` — and a missing/empty kind, which is first defaulted to
`inline` — routes to the thread-reply endpoint with the first occurrence of
the review-body marker removed from the identifier; kind `conversation` or
`review-body` routes to the new-conversation-comment endpoint with the
identifier appearing only in the description; any other kind routes to the
thread-reply endpoint with the identifier used verbatim (the marker is NOT
removed on this branch). -/
theorem reply_routing (cfg : DispatchConfig) (r : ReplyReq) :
    ((r.type = some "inline" ∨ r.type = some "inline-reply" ∨
        strTruthy r.type = false) →
      postRoute cfg (defType r) =
        (threadReplyCmd cfg (jsReplaceOnce rbMarker r.id.toDisplay)
            (r.body.getD ""),
          "Reply to inline comment #" ++ jsReplaceOnce rbMarker r.id.toDisplay)) ∧
      ((r.type = some "conversation" ∨ r.type = some "review-body") →
        postRoute cfg (defType r) =
          (issueCommentCmd cfg (r.body.getD ""),
            "New conversation comment (re: " ++ r.type.getD "" ++ " #" ++
              r.id.toDisplay ++ ")")) ∧
      (∀ t, r.type = some t → t ≠ "" → t ≠ "inline" → t ≠ "inline-reply" →
        t ≠ "conversation" → t ≠ "review-body" →
        postRoute cfg (defType r) =
          (threadReplyCmd cfg r.id.toDisplay (r.body.getD ""),
            "Reply to comment #" ++ r.id.toDisplay)) := by
  refine ⟨?_, ?_, ?_⟩
  · intro h
    rcases h with h | h | h
    · simp [defType, strTruthy, h, postRoute]
    · simp [defType, strTruthy, h, postRoute]
    · simp [defType, h, postRoute]
  · intro h
    rcases h with h | h <;> simp [defType, strTruthy, postRoute, h]
  · intro t h hne h1 h2 h3 h4
    have ht : strTruthy (some t) = true := by simp [strTruthy, hne]
    simp [defType, postRoute, h, ht, h1, h2, h3, h4]

/-- C3 counterexample: the claim asserts that an unrecognized kind gets the
same identifier transform as `inline`; in the code the unrecognized-kind
branch interpolates the identifier verbatim, so for identifier
`review-body-7` the produced commands differ (`comments/review-body-7/replies`
versus `comments/7/replies`). -/
theorem reply_routing_cx :
    (postRoute cfgDry (defType reqLegacy)).1 =
        "gh api repos/o/r/pulls/5/comments/review-body-7/replies -f body=" ++
          sqs ++ "x" ++ sqs ∧
      (postRoute cfgDry (defType reqInlineTwin)).1 =
        "gh api repos/o/r/pulls/5/comments/7/replies -f body=" ++ sqs ++
          "x" ++ sqs ∧
      (postRoute cfgDry (defType reqLegacy)).1 ≠
        (postRoute cfgDry (defType reqInlineTwin)).1 := by
  decide

/-- C3 witness: the inline routing at a concrete request with a marker-carrying
identifier. -/
theorem reply_routing_inst :
    postRoute cfgDry (defType reqInlineTwin) =
      ("gh api repos/o/r/pulls/5/comments/7/replies -f body=" ++ sqs ++
          "x" ++ sqs,
        "Reply to inline comment #7") := by
  have h := (reply_routing cfgDry reqInlineTwin).1 (Or.inl rfl)
  rw [h]
  decide

/-! ## Claim theorems: Aggregator -/

theorem buildHierarchy_allComments (repo : String) (prNumber : Nat)
    (headSha : Option String) (reviews : List RawReview)
    (cs : List RawReviewComment) (ics : List RawIssueComment) :
    (buildHierarchy repo prNumber headSha reviews cs ics).allComments =
      sortCA (presortFlat repo prNumber headSha reviews cs ics) := rfl

/-- C2: a comment whose `in_reply_to_id` points at an identity absent from
the fetched inline comments does not make the Aggregator fail, but contrary
to the claim it does NOT appear in the flat list at all: at the concrete
failing input (one comment replying to the never-fetched id 999) the flat
list is empty and the grand total is 0, with no unresolved-parent note of any
kind.  The comment is silently dropped, which contradicts the stated
contract of the script that `allComments` holds every comment in one
place. -/
theorem dangling_parent_dropped :
    csDangling.length = 1 ∧
      (buildHierarchy "o/r" 1 (some "sha") [] csDangling []).allComments = [] ∧
      (buildHierarchy "o/r" 1 (some "sha") [] csDangling
          []).stats.totalAllComments = 0 ∧
      (buildHierarchy "o/r" 1 (some "sha") [] csDangling
          []).stats.totalReplies = 0 := by
  decide

/-- C4 (amended): the flat list is sorted non-decreasing by creation
timestamp, and entries with equal timestamps preserve their relative order in
the pre-sort construction (review bodies, then each top-level inline comment
followed by its replies in ascending-id order, then issue comments) — the
sort is stable, but that construction order, not the fetch order, is what
ties preserve. -/
theorem flat_order (repo : String) (prNumber : Nat) (headSha : Option String)
    (reviews : List RawReview) (cs : List RawReviewComment)
    (ics : List RawIssueComment) :
    (buildHierarchy repo prNumber headSha reviews cs ics).allComments.Pairwise
        (fun a b => a.createdAt ≤ b.createdAt) ∧
      ∀ t,
        (buildHierarchy repo prNumber headSha reviews cs
              ics).allComments.filter (fun e => e.createdAt == t) =
          (presortFlat repo prNumber headSha reviews cs ics).filter
            (fun e => e.createdAt == t) := by
  constructor
  · rw [buildHierarchy_allComments]
    exact sortCA_sorted _
  · intro t
    rw [buildHierarchy_allComments]
    exact filter_sortCA _ t

/-- C4 counterexample: with two top-level comments and one reply, where the
reply (id 3, fetched after top-level id 2) ties id 2 on creation time, the
flat list orders id 3 before id 2 — the reply is emitted right after its
thread root — so entries with equal timestamps do not preserve the original
relative fetch order. -/
theorem flat_order_cx :
    ((buildHierarchy "o/r" 1 (some "sha") [] csTies []).allComments.map (·.id) =
        [FlatId.num 1, FlatId.num 3, FlatId.num 2]) ∧
      (csTies.map (·.id) = [1, 2, 3]) ∧
      ¬(((buildHierarchy "o/r" 1 (some "sha") [] csTies []).allComments.filter
            (fun e => e.createdAt == 20)).map (·.id) =
          (csTies.filter (fun c => c.created_at == 20)).map
            (fun c => FlatId.num c.id)) := by
  decide

/-- C4 witness: the ordering theorem applied at a concrete input. -/
theorem flat_order_inst :
    (buildHierarchy "o/r" 1 (some "sha") wReviews wComments
        wIssues).allComments.Pairwise (fun a b => a.createdAt ≤ b.createdAt) :=
  (flat_order "o/r" 1 (some "sha") wReviews wComments wIssues).1


/-! ### Association-list object lemmas -/

theorem jsLookup_cons {α : Type} (q : Nat × α) (m : List (Nat × α)) (k : Nat) :
    jsLookup (q :: m) k = if q.1 == k then some q.2 else jsLookup m k := by
  cases h : (q.1 == k) <;> simp [jsLookup, List.find?, h]

theorem jsUpdate_cons {α : Type} (q : Nat × α) (m : List (Nat × α)) (k : Nat)
    (f : α → α) :
    jsUpdate (q :: m) k f =
      (if q.1 == k then (q.1, f q.2) else q) :: jsUpdate m k f := rfl

theorem keys_jsUpdate {α : Type} (m : List (Nat × α)) (k : Nat) (f : α → α) :
    (jsUpdate m k f).map Prod.fst = m.map Prod.fst := by
  induction m with
  | nil => rfl
  | cons p m ih => by_cases h : p.1 = k <;> simp [jsUpdate_cons, h, ih]

theorem jsHasKey_keys {α : Type} (m : List (Nat × α)) (k : Nat) :
    jsHasKey m k = (m.map Prod.fst).any (fun x => x == k) := by
  induction m with
  | nil => rfl
  | cons p m ih =>
    simp only [jsHasKey] at ih ⊢
    simp [List.any_cons, ih]

theorem jsHasKey_jsUpdate {α : Type} (m : List (Nat × α)) (k k' : Nat)
    (f : α → α) : jsHasKey (jsUpdate m k' f) k = jsHasKey m k := by
  rw [jsHasKey_keys, jsHasKey_keys, keys_jsUpdate]

theorem jsLookup_jsUpdate_self {α : Type} (m : List (Nat × α)) (k : Nat)
    (f : α → α) : jsLookup (jsUpdate m k f) k = (jsLookup m k).map f := by
  induction m with
  | nil => rfl
  | cons p m ih => by_cases h : p.1 = k <;> simp [jsUpdate_cons, jsLookup_cons, h, ih]

theorem jsLookup_jsUpdate_ne {α : Type} (m : List (Nat × α)) (k k' : Nat)
    (f : α → α) (h : k ≠ k') :
    jsLookup (jsUpdate m k' f) k = jsLookup m k := by
  induction m with
  | nil => rfl
  | cons p m ih =>
    by_cases hp : p.1 = k'
    · have hk : ¬p.1 = k := fun hh => h (hh.symm.trans hp)
      have hkk : ¬k' = k := fun hh => h hh.symm
      simp [jsUpdate_cons, jsLookup_cons, hp, hk, hkk, ih]
    · by_cases hk : p.1 = k <;>
        simp [jsUpdate_cons, jsLookup_cons, hp, hk, h, ih]

theorem jsHasKey_eq_isSome {α : Type} (m : List (Nat × α)) (k : Nat) :
    jsHasKey m k = (jsLookup m k).isSome := by
  induction m with
  | nil => simp [jsHasKey, jsLookup]
  | cons p m ih =>
    simp only [jsHasKey] at ih ⊢
    by_cases h : p.1 = k <;> simp [jsLookup_cons, List.any_cons, h, ih]

theorem jsObjSet_eq_of_mem {α : Type} (m : List (Nat × α)) (k : Nat) (v : α)
    (h : jsHasKey m k = true) : jsObjSet m k v = jsUpdate m k (fun _ => v) := by
  have h' : (m.any fun p => p.1 == k) = true := h
  unfold jsObjSet jsUpdate
  rw [if_pos h']
  refine List.map_congr_left ?_
  intro p _
  by_cases hp : p.1 = k <;> simp [hp]

theorem jsObjSet_eq_of_not_mem {α : Type} (m : List (Nat × α)) (k : Nat)
    (v : α) (h : jsHasKey m k = false) : jsObjSet m k v = m ++ [(k, v)] := by
  have h' : ¬((m.any fun p => p.1 == k) = true) := by
    intro hc
    rw [show (m.any fun p => p.1 == k) = jsHasKey m k from rfl, h] at hc
    exact Bool.false_ne_true hc
  unfold jsObjSet
  rw [if_neg h']

theorem jsHasKey_jsObjSet {α : Type} (m : List (Nat × α)) (k k' : Nat)
    (v : α) : jsHasKey (jsObjSet m k' v) k = (jsHasKey m k || (k' == k)) := by
  cases hin : jsHasKey m k'
  · rw [jsObjSet_eq_of_not_mem m k' v hin]
    simp [jsHasKey, List.any_append]
  · rw [jsObjSet_eq_of_mem m k' v hin, jsHasKey_jsUpdate]
    by_cases hk : k' = k
    · subst hk
      simp [hin]
    · simp [hk]

theorem jsLookup_jsObjSet_self {α : Type} (m : List (Nat × α)) (k : Nat)
    (v : α) : jsLookup (jsObjSet m k v) k = some v := by
  cases hin : jsHasKey m k
  · rw [jsObjSet_eq_of_not_mem m k v hin]
    induction m with
    | nil => simp [jsLookup_cons]
    | cons p m ih =>
      have hp : ¬p.1 = k := by
        intro hh
        simp [jsHasKey, hh] at hin
      rw [List.cons_append, jsLookup_cons, if_neg (by simpa using hp)]
      exact ih (by simpa [jsHasKey, hp] using hin)
  · rw [jsObjSet_eq_of_mem m k v hin, jsLookup_jsUpdate_self]
    rw [jsHasKey_eq_isSome] at hin
    cases hl : jsLookup m k
    · rw [hl] at hin
      simp at hin
    · rfl

theorem jsLookup_jsObjSet_ne {α : Type} (m : List (Nat × α)) (k k' : Nat)
    (v : α) (h : k ≠ k') : jsLookup (jsObjSet m k' v) k = jsLookup m k := by
  cases hin : jsHasKey m k'
  · rw [jsObjSet_eq_of_not_mem m k' v hin]
    induction m with
    | nil => simp [jsLookup_cons, jsLookup, show ¬(k' = k) from fun hh => h hh.symm]
    | cons p m ih =>
      rw [List.cons_append, jsLookup_cons, jsLookup_cons]
      by_cases hk : p.1 = k
      · simp [hk]
      · simp only [show (p.1 == k) = false by simpa using hk]
        exact ih (by
          simp [jsHasKey] at hin ⊢
          exact fun a b hb hab => hin.2 a b hb hab)
  · rw [jsObjSet_eq_of_mem m k' v hin]
    exact jsLookup_jsUpdate_ne m k k' _ h

/-! ### First-pass and second-pass lemmas -/

theorem foldl_jsObjSet_fresh (g : RawReviewComment → CommentData) :
    ∀ (cs : List RawReviewComment) (acc : List (Nat × CommentData)),
      (∀ c ∈ cs, jsHasKey acc c.id = false) → (cs.map (·.id)).Nodup →
      cs.foldl (fun m c => jsObjSet m c.id (g c)) acc =
        acc ++ cs.map (fun c => (c.id, g c)) := by
  intro cs
  induction cs with
  | nil => intro acc _ _; simp
  | cons c cs ih =>
    intro acc hf hN
    have h1 : jsObjSet acc c.id (g c) = acc ++ [(c.id, g c)] :=
      jsObjSet_eq_of_not_mem acc c.id (g c) (hf c (by simp))
    have hcid : c.id ∉ cs.map (·.id) := (List.nodup_cons.mp hN).1
    have hf' : ∀ x ∈ cs, jsHasKey (acc ++ [(c.id, g c)]) x.id = false := by
      intro x hx
      have hne : ¬(c.id = x.id) := fun hh =>
        hcid (hh ▸ List.mem_map_of_mem (·.id) hx)
      have hne' : (c.id == x.id) = false := by simpa using hne
      have hacc : (acc.any fun p => p.1 == x.id) = false := hf x (by simp [hx])
      simp [jsHasKey, List.any_append, List.any_cons, hne', hacc]
    rw [List.foldl_cons, h1, ih (acc ++ [(c.id, g c)]) hf' (List.nodup_cons.mp hN).2]
    simp

theorem indexComments_eq (headSha : Option String) (cs : List RawReviewComment)
    (hN : (cs.map (·.id)).Nodup) :
    indexComments headSha cs = cs.map (fun c => (c.id, initComment headSha c)) := by
  have h := foldl_jsObjSet_fresh (initComment headSha) cs []
    (by intro c _; rfl) hN
  simpa [indexComments] using h

theorem jsLookup_literal_self {β : Type} (f : β → Nat) (g : β → CommentData)
    (l : List β) (hN : (l.map f).Nodup) (b : β) (hb : b ∈ l) :
    jsLookup (l.map fun x => (f x, g x)) (f b) = some (g b) := by
  induction l with
  | nil => cases hb
  | cons x l ih =>
    rcases List.mem_cons.mp hb with rfl | hb'
    · simp [jsLookup_cons]
    · have hne : ¬(f x = f b) := fun hh =>
        (List.nodup_cons.mp hN).1 (hh ▸ List.mem_map_of_mem f hb')
      rw [List.map_cons, jsLookup_cons, if_neg (by simpa using hne)]
      exact ih (List.nodup_cons.mp hN).2 hb'

theorem jsHasKey_literal {β : Type} (f : β → Nat) (g : β → CommentData)
    (l : List β) (k : Nat) :
    jsHasKey (l.map fun x => (f x, g x)) k = l.any (fun x => f x == k) := by
  induction l with
  | nil => rfl
  | cons x l ih => simp [jsHasKey, List.any_cons] at ih ⊢; rw [ih]

theorem attachReply_keys (m : List (Nat × CommentData)) (c : RawReviewComment) :
    (attachReply m c).map Prod.fst = m.map Prod.fst := by
  unfold attachReply
  split
  · rw [keys_jsUpdate, keys_jsUpdate]
  · rfl

theorem attachCond_congr (m m' : List (Nat × CommentData))
    (c : RawReviewComment) (h : m.map Prod.fst = m'.map Prod.fst) :
    attachCond m c = attachCond m' c := by
  unfold attachCond
  rw [jsHasKey_keys, h, ← jsHasKey_keys]

theorem foldl_attachReply_keys (cs : List RawReviewComment) :
    ∀ m : List (Nat × CommentData),
      (cs.foldl attachReply m).map Prod.fst = m.map Prod.fst := by
  induction cs with
  | nil => intro m; rfl
  | cons c cs ih =>
    intro m
    rw [List.foldl_cons, ih (attachReply m c), attachReply_keys]

theorem secondPass_fst (m0 : List (Nat × CommentData))
    (cs : List RawReviewComment) :
    (secondPass m0 cs).1 = cs.foldl attachReply m0 := by
  suffices h : ∀ (cs : List RawReviewComment) m n,
      (cs.foldl
        (fun acc c =>
          (attachReply acc.1 c,
            if attachCond acc.1 c then acc.2 + 1 else acc.2)) (m, n)).1 =
        cs.foldl attachReply m by
    exact h cs m0 0
  intro cs
  induction cs with
  | nil => intro m n; rfl
  | cons c cs ih => intro m n; simp [List.foldl_cons, ih]

theorem secondPass_snd (m0 : List (Nat × CommentData))
    (cs : List RawReviewComment) :
    (secondPass m0 cs).2 = cs.countP (attachCond m0) := by
  suffices h : ∀ (cs : List RawReviewComment) m n,
      m.map Prod.fst = m0.map Prod.fst →
      (cs.foldl
        (fun acc c =>
          (attachReply acc.1 c,
            if attachCond acc.1 c then acc.2 + 1 else acc.2)) (m, n)).2 =
        n + cs.countP (attachCond m0) by
    simpa using h cs m0 0 rfl
  intro cs
  induction cs with
  | nil => intro m n _; simp
  | cons c cs ih =>
    intro m n hkeys
    have hcond : attachCond m c = attachCond m0 c := attachCond_congr m m0 c hkeys
    have hkeys' : (attachReply m c).map Prod.fst = m0.map Prod.fst := by
      rw [attachReply_keys, hkeys]
    rw [List.foldl_cons, List.countP_cons]
    cases hc : attachCond m0 c
    · have hcc : attachCond m c = false := hcond.trans hc
      simp only [hcc, Bool.false_eq_true, if_false]
      rw [ih (attachReply m c) n hkeys']
      omega
    · have hcc : attachCond m c = true := hcond.trans hc
      simp only [hcc, if_true]
      rw [ih (attachReply m c) (n + 1) hkeys']
      omega

theorem lookup_attachReply_static (m : List (Nat × CommentData))
    (c : RawReviewComment) (k : Nat) :
    ((jsLookup (attachReply m c) k).map fun d => (d.id, d.pullRequestReviewId)) =
      ((jsLookup m k).map fun d => (d.id, d.pullRequestReviewId)) := by
  unfold attachReply
  cases hc : attachCond m c
  · rw [if_neg (by simp)]
  · rw [if_pos rfl]
    by_cases hkc : k = c.id
    · rw [hkc, jsLookup_jsUpdate_self]
      by_cases hpc : c.id = c.in_reply_to_id.getD 0
      · rw [← hpc, jsLookup_jsUpdate_self]
        cases jsLookup m c.id <;> simp
      · rw [jsLookup_jsUpdate_ne _ _ _ _ hpc]
        cases jsLookup m c.id <;> simp
    · rw [jsLookup_jsUpdate_ne _ _ _ _ hkc]
      by_cases hkp : k = c.in_reply_to_id.getD 0
      · rw [hkp, jsLookup_jsUpdate_self]
        cases jsLookup m (c.in_reply_to_id.getD 0) <;> simp
      · rw [jsLookup_jsUpdate_ne _ _ _ _ hkp]

theorem foldl_attach_static (cs : List RawReviewComment) :
    ∀ (m : List (Nat × CommentData)) (k : Nat),
      ((jsLookup (cs.foldl attachReply m) k).map fun d =>
          (d.id, d.pullRequestReviewId)) =
        ((jsLookup m k).map fun d => (d.id, d.pullRequestReviewId)) := by
  induction cs with
  | nil => intro m k; rfl
  | cons c cs ih =>
    intro m k
    rw [List.foldl_cons, ih (attachReply m c) k, lookup_attachReply_static]

theorem replyIds_attachReply (m : List (Nat × CommentData))
    (c : RawReviewComment) (k : Nat) (hc : attachCond m c = true)
    (hfresh : ∀ d, jsLookup m (c.in_reply_to_id.getD 0) = some d →
      c.id ∉ d.replyIds) :
    ((jsLookup (attachReply m c) k).map (·.replyIds)) =
      ((jsLookup m k).map fun d =>
        if c.in_reply_to_id.getD 0 == k then d.replyIds ++ [c.id]
        else d.replyIds) := by
  unfold attachReply
  rw [if_pos hc]
  by_cases hkp : k = c.in_reply_to_id.getD 0
  · by_cases hkc : k = c.id
    · have hcidp : c.id = c.in_reply_to_id.getD 0 := hkc.symm.trans hkp
      rw [hkc, jsLookup_jsUpdate_self, ← hcidp, jsLookup_jsUpdate_self]
      cases hl : jsLookup m c.id with
      | none => simp
      | some d =>
        simp [show (c.in_reply_to_id.getD 0 == c.id) = true by
          rw [← hcidp]; simp]
        exact hfresh d (by rw [← hcidp]; exact hl)
    · have hkc' : c.in_reply_to_id.getD 0 ≠ c.id := fun hh =>
        hkc ((hkp.trans hh))
      rw [hkp, jsLookup_jsUpdate_ne _ _ _ _ hkc', jsLookup_jsUpdate_self]
      cases hl : jsLookup m (c.in_reply_to_id.getD 0) with
      | none => simp
      | some d =>
        simp
        exact hfresh d hl
  · have hbk : (c.in_reply_to_id.getD 0 == k) = false := by
      simpa using fun hh => hkp hh.symm
    by_cases hkc : k = c.id
    · have hne : c.id ≠ c.in_reply_to_id.getD 0 := fun hh =>
        hkp (hkc.trans hh)
      rw [hkc, jsLookup_jsUpdate_self, jsLookup_jsUpdate_ne _ _ _ _ hne]
      have hbk' : (c.in_reply_to_id.getD 0 == c.id) = false := by
        simpa using fun hh => hne hh.symm
      cases jsLookup m c.id <;> simp [hbk']
    · rw [jsLookup_jsUpdate_ne _ _ _ _ hkc, jsLookup_jsUpdate_ne _ _ _ _ hkp]
      cases jsLookup m k <;> simp [hbk]

theorem foldl_attach_replyIds :
    ∀ (cs : List RawReviewComment) (m : List (Nat × CommentData)),
      (cs.map (·.id)).Nodup →
      (∀ c ∈ cs, ∀ k d, jsLookup m k = some d → c.id ∉ d.replyIds) →
      ∀ k,
        ((jsLookup (cs.foldl attachReply m) k).map (·.replyIds)) =
          ((jsLookup m k).map fun d =>
            d.replyIds ++
              (cs.filter fun c =>
                attachCond m c && (c.in_reply_to_id.getD 0 == k)).map (·.id)) := by
  intro cs
  induction cs with
  | nil => intro m _ _ k; simp
  | cons c cs ih =>
    intro m hN hfresh k
    have hNt : (cs.map (·.id)).Nodup := (List.nodup_cons.mp hN).2
    have hcid : c.id ∉ cs.map (·.id) := (List.nodup_cons.mp hN).1
    have hkeys : (attachReply m c).map Prod.fst = m.map Prod.fst :=
      attachReply_keys m c
    have hcondc : ∀ x, attachCond (attachReply m c) x = attachCond m x :=
      fun x => attachCond_congr _ _ x hkeys
    rw [List.foldl_cons]
    cases hc : attachCond m c with
    | false =>
      have hm' : attachReply m c = m := by
        unfold attachReply
        rw [if_neg (by simp [hc])]
      rw [hm', ih m hNt (fun x hx => hfresh x (by simp [hx])) k,
        List.filter_cons_of_neg (by simp [hc])]
    | true =>
      have hfr : ∀ d, jsLookup m (c.in_reply_to_id.getD 0) = some d →
          c.id ∉ d.replyIds :=
        fun d hd => hfresh c (by simp) _ d hd
      have hstep : ∀ q,
          ((jsLookup (attachReply m c) q).map (·.replyIds)) =
            ((jsLookup m q).map fun d =>
              if c.in_reply_to_id.getD 0 == q then d.replyIds ++ [c.id]
              else d.replyIds) :=
        fun q => replyIds_attachReply m c q hc hfr
      have hfresh' : ∀ x ∈ cs, ∀ q d', jsLookup (attachReply m c) q = some d' →
          x.id ∉ d'.replyIds := by
        intro x hx q d' hd'
        have hq := hstep q
        rw [hd'] at hq
        cases hl : jsLookup m q with
        | none => rw [hl] at hq; simp at hq
        | some d =>
          rw [hl] at hq
          simp only [Option.map_some'] at hq
          have hxid : x.id ≠ c.id := by
            intro hh
            exact hcid (hh ▸ List.mem_map_of_mem (·.id) hx)
          have hxd : x.id ∉ d.replyIds := hfresh x (by simp [hx]) q d hl
          have hq' : d'.replyIds =
              if c.in_reply_to_id.getD 0 == q then d.replyIds ++ [c.id]
              else d.replyIds := by simpa using hq
          intro hmem
          rw [hq'] at hmem
          by_cases hpq : (c.in_reply_to_id.getD 0 == q) = true
          · rw [if_pos hpq] at hmem
            rcases List.mem_append.mp hmem with hmem | hmem
            · exact hxd hmem
            · exact hxid (by simpa using hmem)
          · rw [if_neg hpq] at hmem
            exact hxd hmem
      have hfiltc :
          (cs.filter fun y => attachCond (attachReply m c) y &&
              (y.in_reply_to_id.getD 0 == k)) =
            (cs.filter fun y => attachCond m y &&
              (y.in_reply_to_id.getD 0 == k)) :=
        List.filter_congr (fun x _ => by rw [hcondc x])
      rw [ih (attachReply m c) hNt hfresh' k, hfiltc]
      cases hl' : jsLookup (attachReply m c) k with
      | none =>
        cases hl : jsLookup m k with
        | none => simp
        | some d =>
          have hcontr := hstep k
          rw [hl', hl] at hcontr
          simp at hcontr
      | some d' =>
        cases hl : jsLookup m k with
        | none =>
          have hcontr := hstep k
          rw [hl', hl] at hcontr
          simp at hcontr
        | some d =>
          have hrd : d'.replyIds =
              if c.in_reply_to_id.getD 0 == k then d.replyIds ++ [c.id]
              else d.replyIds := by
            have hq := hstep k
            rw [hl', hl] at hq
            simpa using hq
          simp only [Option.map_some']
          rw [List.filter_cons]
          by_cases hpk : (c.in_reply_to_id.getD 0 == k) = true
          · simp [hrd, hc, hpk, List.append_assoc]
          · simp [hrd, hc, hpk]

/-! ### Phase-level lemmas -/

theorem reviewsPhase_flat_aux (headSha : Option String) :
    ∀ (rs : List RawReview) (m : List (Nat × ReviewNode))
      (flat : List FlatComment),
      (rs.foldl
        (fun acc r =>
          (jsObjSet acc.1 r.id (initReview headSha r),
            if reviewHasBody r then acc.2 ++ [reviewBodyEntry headSha r]
            else acc.2)) (m, flat)).2 =
        flat ++ (rs.filter reviewHasBody).map (reviewBodyEntry headSha) := by
  intro rs
  induction rs with
  | nil => intro m flat; simp
  | cons r rs ih =>
    intro m flat
    rw [List.foldl_cons]
    cases hr : reviewHasBody r
    · rw [List.filter_cons_of_neg (by simp [hr])]
      simpa [hr] using ih _ flat
    · rw [List.filter_cons_of_pos (by simp [hr])]
      simp only [hr, if_true]
      rw [ih _ (flat ++ [reviewBodyEntry headSha r])]
      simp

theorem reviewsPhase_flat (headSha : Option String) (rs : List RawReview) :
    (reviewsPhase headSha rs).2 =
      (rs.filter reviewHasBody).map (reviewBodyEntry headSha) := by
  simpa [reviewsPhase] using reviewsPhase_flat_aux headSha rs [] []

theorem reviewsPhase_hasKey_aux (headSha : Option String) :
    ∀ (rs : List RawReview) (m : List (Nat × ReviewNode))
      (flat : List FlatComment) (k : Nat),
      jsHasKey
        (rs.foldl
          (fun acc r =>
            (jsObjSet acc.1 r.id (initReview headSha r),
              if reviewHasBody r then acc.2 ++ [reviewBodyEntry headSha r]
              else acc.2)) (m, flat)).1 k =
        (jsHasKey m k || rs.any (fun r => r.id == k)) := by
  intro rs
  induction rs with
  | nil => intro m flat k; simp
  | cons r rs ih =>
    intro m flat k
    rw [List.foldl_cons]
    cases hb : reviewHasBody r <;>
      · simp only [hb]
        rw [ih _ _ k, jsHasKey_jsObjSet]
        simp [List.any_cons, Bool.or_assoc]

theorem reviewsPhase_hasKey (headSha : Option String) (rs : List RawReview)
    (k : Nat) :
    jsHasKey (reviewsPhase headSha rs).1 k = rs.any (fun r => r.id == k) := by
  have h := reviewsPhase_hasKey_aux headSha rs [] [] k
  simpa [reviewsPhase, jsHasKey] using h

theorem mem_jsObjSet {α : Type} (m : List (Nat × α)) (k : Nat) (v : α)
    (q : Nat × α) (hq : q ∈ jsObjSet m k v) : q ∈ m ∨ q.2 = v := by
  unfold jsObjSet at hq
  split at hq
  · rcases List.mem_map.mp hq with ⟨p, hp, he⟩
    by_cases hpk : p.1 = k
    · right
      rw [← he]
      simp [hpk]
    · left
      rw [← he]
      simp [hpk, hp]
  · rcases List.mem_append.mp hq with h | h
    · exact Or.inl h
    · right
      simp at h
      rw [h]

theorem mem_jsUpdate {α : Type} (m : List (Nat × α)) (k : Nat) (f : α → α)
    (q : Nat × α) (hq : q ∈ jsUpdate m k f) :
    ∃ p ∈ m, q.2 = p.2 ∨ q.2 = f p.2 := by
  unfold jsUpdate at hq
  rcases List.mem_map.mp hq with ⟨p, hp, he⟩
  refine ⟨p, hp, ?_⟩
  by_cases hpk : p.1 = k
  · right
    rw [← he]
    simp [hpk]
  · left
    rw [← he]
    simp [hpk]

theorem reviewsPhase_commentIds_aux (headSha : Option String) :
    ∀ (rs : List RawReview) (m : List (Nat × ReviewNode))
      (flat : List FlatComment),
      (∀ q ∈ m, q.2.commentIds = []) →
      ∀ q ∈ (rs.foldl
          (fun acc r =>
            (jsObjSet acc.1 r.id (initReview headSha r),
              if reviewHasBody r then acc.2 ++ [reviewBodyEntry headSha r]
              else acc.2)) (m, flat)).1,
        q.2.commentIds = [] := by
  intro rs
  induction rs with
  | nil => intro m flat h q hq; exact h q hq
  | cons r rs ih =>
    intro m flat h q hq
    rw [List.foldl_cons] at hq
    refine ih _ _ ?_ q hq
    intro p hp
    rcases mem_jsObjSet _ _ _ p hp with hp' | hp'
    · exact h p hp'
    · rw [hp']
      rfl

theorem reviewsPhase_commentIds (headSha : Option String) (rs : List RawReview) :
    ∀ q ∈ (reviewsPhase headSha rs).1, q.2.commentIds = [] := by
  intro q hq
  exact reviewsPhase_commentIds_aux headSha rs [] [] (by intro p hp; cases hp)
    q hq

theorem issuePhase_flat_aux (repo : String) (prNumber : Nat) :
    ∀ (ics : List RawIssueComment) (m : List (Nat × IssueNode))
      (flat : List FlatComment),
      (ics.foldl
        (fun acc ic =>
          (jsObjSet acc.1 ic.id
            ⟨ic.id, ic.body, ic.user_login, ic.author_association,
              ic.created_at, ic.updated_at, ic.html_url⟩,
            acc.2 ++ [convEntry repo prNumber ic])) (m, flat)).2 =
        flat ++ ics.map (convEntry repo prNumber) := by
  intro ics
  induction ics with
  | nil => intro m flat; simp
  | cons ic ics ih =>
    intro m flat
    rw [List.foldl_cons, ih _ (flat ++ [convEntry repo prNumber ic])]
    simp

theorem issuePhase_flat (repo : String) (prNumber : Nat)
    (ics : List RawIssueComment) :
    (issuePhase repo prNumber ics).2 = ics.map (convEntry repo prNumber) := by
  simpa [issuePhase] using issuePhase_flat_aux repo prNumber ics [] []

theorem assignPhase_flat_aux (repo : String) (prNumber : Nat)
    (m : List (Nat × CommentData)) :
    ∀ (tl : List Nat) (rm : List (Nat × ReviewNode))
      (orph : List (Nat × CommentData)) (flat : List FlatComment),
      (tl.foldl
        (fun acc cid =>
          match jsLookup m cid with
          | none => acc
          | some d =>
            let rid := d.pullRequestReviewId.getD 0
            let resolved := natTruthy d.pullRequestReviewId && jsHasKey acc.1 rid
            ((if resolved then
                jsUpdate acc.1 rid
                  (fun rn => { rn with commentIds := rn.commentIds ++ [cid] })
              else acc.1),
              (if resolved then acc.2.1 else jsObjSet acc.2.1 cid d),
              acc.2.2 ++ topContrib repo prNumber m cid)) (rm, orph, flat)).2.2 =
        flat ++ tl.flatMap (topContrib repo prNumber m) := by
  intro tl
  induction tl with
  | nil => intro rm orph flat; simp
  | cons cid tl ih =>
    intro rm orph flat
    rw [List.foldl_cons, List.flatMap_cons]
    cases hl : jsLookup m cid with
    | none =>
      rw [show topContrib repo prNumber m cid = [] by
        unfold topContrib; rw [hl]]
      simpa using ih rm orph flat
    | some d =>
      rw [ih _ _ (flat ++ topContrib repo prNumber m cid)]
      simp

theorem assignPhase_flat (repo : String) (prNumber : Nat)
    (m : List (Nat × CommentData)) (tl : List Nat)
    (rm0 : List (Nat × ReviewNode)) :
    (assignPhase repo prNumber m tl rm0).2.2 =
      tl.flatMap (topContrib repo prNumber m) := by
  simpa [assignPhase] using assignPhase_flat_aux repo prNumber m tl rm0 [] []

/-! ### Counting utilities -/

theorem insNatAsc_length (x : Nat) (l : List Nat) :
    (insNatAsc x l).length = l.length + 1 := by
  induction l with
  | nil => rfl
  | cons y l ih =>
    simp only [insNatAsc]
    split <;> simp [ih]

theorem sortNatAsc_length (l : List Nat) : (sortNatAsc l).length = l.length := by
  induction l with
  | nil => rfl
  | cons x l ih => simp [sortNatAsc, insNatAsc_length, ih]

theorem mem_insNatAsc (x y : Nat) (l : List Nat) :
    y ∈ insNatAsc x l ↔ y = x ∨ y ∈ l := by
  induction l with
  | nil => simp [insNatAsc]
  | cons z l ih =>
    simp only [insNatAsc]
    split
    · simp [or_comm, or_assoc, or_left_comm]
    · simp [ih]
      tauto

theorem mem_sortNatAsc (y : Nat) (l : List Nat) :
    y ∈ sortNatAsc l ↔ y ∈ l := by
  induction l with
  | nil => simp [sortNatAsc]
  | cons x l ih => simp [sortNatAsc, mem_insNatAsc, ih]

theorem length_filterMap_isSome {α β : Type} (f : α → Option β) :
    ∀ (l : List α), (∀ x ∈ l, (f x).isSome) →
      (l.filterMap f).length = l.length := by
  intro l
  induction l with
  | nil => intro _; rfl
  | cons x l ih =>
    intro h
    cases hfx : f x with
    | none =>
      have := h x (by simp)
      rw [hfx] at this
      simp at this
    | some b =>
      simp only [List.filterMap_cons, hfx, List.length_cons]
      rw [ih (fun y hy => h y (by simp [hy]))]

theorem length_filter_or_disjoint {α : Type} (p r : α → Bool) :
    ∀ (l : List α), (∀ c ∈ l, ¬(p c = true ∧ r c = true)) →
      (l.filter (fun c => p c || r c)).length =
        (l.filter p).length + (l.filter r).length := by
  intro l
  induction l with
  | nil => intro _; rfl
  | cons x l ih =>
    intro h
    have ih' := ih (fun c hc => h c (by simp [hc]))
    cases hp : p x <;> cases hr : r x
    · simp [List.filter_cons, hp, hr, ih']
    · simp [List.filter_cons, hp, hr, ih']
      omega
    · simp [List.filter_cons, hp, hr, ih']
      omega
    · exact absurd ⟨hp, hr⟩ (h x (by simp))

theorem sum_one_add {α : Type} (f : α → Nat) :
    ∀ (l : List α), (l.map (fun x => 1 + f x)).sum = l.length + (l.map f).sum := by
  intro l
  induction l with
  | nil => rfl
  | cons x l ih => simp [ih]; omega

theorem sum_countP_mem {α : Type} (q : α → Bool) (key : α → Nat)
    (cs : List α) :
    ∀ (tl : List Nat), tl.Nodup →
      (tl.map (fun k => (cs.filter (fun c => q c && (key c == k))).length)).sum =
        (cs.filter (fun c => q c && tl.contains (key c))).length := by
  intro tl
  induction tl with
  | nil => simp
  | cons k tl ih =>
    intro hN
    have hk : k ∉ tl := (List.nodup_cons.mp hN).1
    rw [List.map_cons, List.sum_cons, ih (List.nodup_cons.mp hN).2]
    have hdisj : ∀ c ∈ cs,
        ¬((q c && (key c == k)) = true ∧ (q c && tl.contains (key c)) = true) := by
      intro c _ ⟨h1, h2⟩
      have hkey : key c = k := by
        have := (Bool.and_eq_true _ _).mp h1
        simpa using this.2
      have hmem : key c ∈ tl := by
        have := (Bool.and_eq_true _ _).mp h2
        simpa using this.2
      exact hk (hkey ▸ hmem)
    have hsplit := length_filter_or_disjoint
      (fun c => q c && (key c == k)) (fun c => q c && tl.contains (key c)) cs hdisj
    have hcongr : (cs.filter
        (fun c => (q c && (key c == k)) || (q c && tl.contains (key c)))) =
        (cs.filter (fun c => q c && (k :: tl).contains (key c))) := by
      refine List.filter_congr ?_
      intro c _
      cases hq : q c
      · simp
      · by_cases hkk : key c = k <;> simp [List.contains_cons, hkk]
    rw [← hcongr, hsplit]

theorem jsLookup_literal_mem {β : Type} (f : β → Nat) (g : β → CommentData)
    (l : List β) (k : Nat) (d : CommentData)
    (h : jsLookup (l.map fun x => (f x, g x)) k = some d) : ∃ x ∈ l, d = g x := by
  unfold jsLookup at h
  cases hf : List.find? (fun p => p.1 == k) (l.map fun x => (f x, g x)) with
  | none => rw [hf] at h; simp at h
  | some p =>
    rw [hf] at h
    simp only [Option.map_some'] at h
    have hp := List.mem_of_find?_eq_some hf
    rcases List.mem_map.mp hp with ⟨x, hx, he⟩
    have hd : p.2 = d := Option.some.inj h
    exact ⟨x, hx, by rw [← hd, ← he]⟩

theorem topLevelIds_nodup (cs : List RawReviewComment)
    (hN : (cs.map (·.id)).Nodup) : (topLevelIds cs).Nodup := by
  unfold topLevelIds
  exact List.Nodup.sublist (List.Sublist.map (·.id) (List.filter_sublist cs)) hN

theorem m0_fresh (headSha : Option String) (cs : List RawReviewComment)
    (hN : (cs.map (·.id)).Nodup) :
    ∀ c ∈ cs, ∀ k d, jsLookup (indexComments headSha cs) k = some d →
      c.id ∉ d.replyIds := by
  intro c _ k d hd
  rw [indexComments_eq headSha cs hN] at hd
  rcases jsLookup_literal_mem (·.id) (initComment headSha) cs k d hd with ⟨x, _, rfl⟩
  simp [initComment]

theorem m1_replyIds (headSha : Option String) (cs : List RawReviewComment)
    (hN : (cs.map (·.id)).Nodup) (c0 : RawReviewComment) (hc0 : c0 ∈ cs) :
    ∃ d, jsLookup (secondPass (indexComments headSha cs) cs).1 c0.id = some d ∧
      d.replyIds =
        (cs.filter fun c =>
          attachCond (indexComments headSha cs) c &&
            (c.in_reply_to_id.getD 0 == c0.id)).map (·.id) := by
  have hm1 := secondPass_fst (indexComments headSha cs) cs
  have hchar := foldl_attach_replyIds cs (indexComments headSha cs) hN
    (m0_fresh headSha cs hN) c0.id
  have hl0 : jsLookup (indexComments headSha cs) c0.id =
      some (initComment headSha c0) := by
    rw [indexComments_eq headSha cs hN]
    exact jsLookup_literal_self (·.id) (initComment headSha) cs hN c0 hc0
  rw [hl0] at hchar
  simp only [Option.map_some'] at hchar
  rw [hm1]
  cases hl1 : jsLookup (cs.foldl attachReply (indexComments headSha cs)) c0.id with
  | none => rw [hl1] at hchar; simp at hchar
  | some d =>
    rw [hl1] at hchar
    simp only [Option.map_some'] at hchar
    refine ⟨d, rfl, ?_⟩
    have := Option.some.inj hchar
    simpa [initComment] using this

theorem m1_hasKey (headSha : Option String) (cs : List RawReviewComment)
    (hN : (cs.map (·.id)).Nodup) (k : Nat) :
    jsHasKey (secondPass (indexComments headSha cs) cs).1 k =
      cs.any (fun c => c.id == k) := by
  rw [secondPass_fst, jsHasKey_keys, foldl_attachReply_keys, ← jsHasKey_keys,
    indexComments_eq headSha cs hN, jsHasKey_literal]

theorem topContrib_length (repo : String) (prNumber : Nat)
    (headSha : Option String) (cs : List RawReviewComment)
    (hN : (cs.map (·.id)).Nodup) (c0 : RawReviewComment) (hc0 : c0 ∈ cs) :
    (topContrib repo prNumber (secondPass (indexComments headSha cs) cs).1
        c0.id).length =
      1 + (cs.filter fun c =>
        attachCond (indexComments headSha cs) c &&
          (c.in_reply_to_id.getD 0 == c0.id)).length := by
  rcases m1_replyIds headSha cs hN c0 hc0 with ⟨d, hd, hrep⟩
  unfold topContrib
  rw [hd]
  simp only [List.length_cons]
  have hlen : (replyEntriesOf repo prNumber
      (secondPass (indexComments headSha cs) cs).1 d).length =
      d.replyIds.length := by
    unfold replyEntriesOf
    rw [length_filterMap_isSome _ _ ?_, sortNatAsc_length]
    intro r hr
    have hrmem : r ∈ d.replyIds := (mem_sortNatAsc r d.replyIds).mp hr
    rw [hrep] at hrmem
    rcases List.mem_map.mp hrmem with ⟨c', hc', rfl⟩
    have hc'cs : c' ∈ cs := List.mem_of_mem_filter hc'
    have hk : jsHasKey (secondPass (indexComments headSha cs) cs).1 c'.id = true := by
      rw [m1_hasKey headSha cs hN]
      exact List.any_eq_true.mpr ⟨c', hc'cs, by simp⟩
    rw [jsHasKey_eq_isSome] at hk
    cases hl : jsLookup (secondPass (indexComments headSha cs) cs).1 c'.id with
    | none => rw [hl] at hk; simp at hk
    | some rd => simp
  rw [hlen, hrep, List.length_map]
  omega

/-- C1 counterexample: with the reply-to-reply chain (comment 2 answers 1,
comment 3 answers 2) the flat list holds only the top-level comment and its
direct reply (length 2, and the grand total reports 2), while the claimed sum
is 1 top-level + 2 resolvable-parent comments = 3: a reply attached to a
comment that is itself a reply is dropped from the flat list, so the
completeness equality fails as stated. -/
theorem completeness_invariant_cx :
    (buildHierarchy "o/r" 1 (some "sha") [] csChain []).allComments.length = 2 ∧
      (buildHierarchy "o/r" 1 (some "sha") []
          csChain []).stats.totalAllComments = 2 ∧
      (([] : List RawReview).filter reviewHasBody).length +
          (csChain.filter (fun c => c.in_reply_to_id == none)).length +
          (csChain.filter (fun c =>
            match c.in_reply_to_id with
            | some p => csChain.any (fun x => x.id == p)
            | none => false)).length +
          ([] : List RawIssueComment).length = 3 ∧
      ¬((buildHierarchy "o/r" 1 (some "sha") [] csChain []).allComments.length =
        (([] : List RawReview).filter reviewHasBody).length +
          (csChain.filter (fun c => c.in_reply_to_id == none)).length +
          (csChain.filter (fun c =>
            match c.in_reply_to_id with
            | some p => csChain.any (fun x => x.id == p)
            | none => false)).length +
          ([] : List RawIssueComment).length) := by
  decide

/-- C1 (amended): provided the inline-comment identities are distinct and
every parent reference is a nonzero identity whose referent — when it is
among the fetched comments — itself has no parent reference (the actual
GitHub data shape; the counterexample shows the equality fails for reply-to-reply
chains), the flat list length equals (reviews with non-empty trimmed body) +
(comments with no parent reference) + (comments whose parent reference
resolves) + (issue comments), and the reported grand total equals the flat
list length. -/
theorem completeness_invariant (repo : String) (prNumber : Nat)
    (headSha : Option String) (reviews : List RawReview)
    (cs : List RawReviewComment) (ics : List RawIssueComment)
    (hN : (cs.map (·.id)).Nodup)
    (hP : ∀ c ∈ cs, c.in_reply_to_id ≠ some 0 ∧
      ∀ c' ∈ cs, c.in_reply_to_id = some c'.id →
        c'.in_reply_to_id = none) :
    (buildHierarchy repo prNumber headSha reviews cs ics).allComments.length =
        (reviews.filter reviewHasBody).length +
          (cs.filter (fun c => c.in_reply_to_id == none)).length +
          (cs.filter (fun c =>
            match c.in_reply_to_id with
            | some p => cs.any (fun x => x.id == p)
            | none => false)).length +
          ics.length ∧
      (buildHierarchy repo prNumber headSha reviews cs
          ics).stats.totalAllComments =
        (buildHierarchy repo prNumber headSha reviews cs ics).allComments.length := by
  refine ⟨?_, rfl⟩
  rw [buildHierarchy_allComments, (sortCA_perm _).length_eq]
  unfold presortFlat
  rw [List.length_append, List.length_append, reviewsPhase_flat,
    List.length_map, issuePhase_flat, List.length_map, assignPhase_flat,
    List.length_flatMap]
  have hmap : (topLevelIds cs).map
      (List.length ∘
        topContrib repo prNumber (secondPass (indexComments headSha cs) cs).1) =
      (topLevelIds cs).map (fun cid =>
        1 + (cs.filter (fun c =>
          attachCond (indexComments headSha cs) c &&
            (c.in_reply_to_id.getD 0 == cid))).length) := by
    refine List.map_congr_left ?_
    intro cid hcid
    unfold topLevelIds at hcid
    rcases List.mem_map.mp hcid with ⟨c0, hc0f, rfl⟩
    simp only [Function.comp]
    exact topContrib_length repo prNumber headSha cs hN c0
      (List.mem_of_mem_filter hc0f)
  rw [hmap, sum_one_add, sum_countP_mem (attachCond (indexComments headSha cs))
    (fun c => c.in_reply_to_id.getD 0) cs (topLevelIds cs)
    (topLevelIds_nodup cs hN)]
  have hT : (topLevelIds cs).length =
      (cs.filter (fun c => c.in_reply_to_id == none)).length := by
    unfold topLevelIds
    rw [List.length_map]
    refine congrArg List.length (List.filter_congr ?_)
    intro c hc
    cases hirt : c.in_reply_to_id with
    | none => simp [natTruthy, hirt]
    | some p =>
      have hp0 : p ≠ 0 := fun h0 => (hP c hc).1 (by rw [hirt, h0])
      simp [natTruthy, hirt, hp0]
  have hRr : (cs.filter (fun c =>
      attachCond (indexComments headSha cs) c &&
        (topLevelIds cs).contains (c.in_reply_to_id.getD 0))).length =
      (cs.filter (fun c =>
        match c.in_reply_to_id with
        | some p => cs.any (fun x => x.id == p)
        | none => false)).length := by
    refine congrArg List.length (List.filter_congr ?_)
    intro c hc
    cases hirt : c.in_reply_to_id with
    | none => simp [attachCond, natTruthy, hirt]
    | some p =>
      have hp0 : p ≠ 0 := fun h0 => (hP c hc).1 (by rw [hirt, h0])
      have hhk : jsHasKey (indexComments headSha cs) p =
          cs.any (fun x => x.id == p) := by
        rw [indexComments_eq headSha cs hN, jsHasKey_literal]
      cases hany : cs.any (fun x => x.id == p) with
      | false => simp [attachCond, natTruthy, hirt, hp0, hhk, hany]
      | true =>
        rcases List.any_eq_true.mp hany with ⟨c', hc', hcp⟩
        have hcp' : c'.id = p := by simpa using hcp
        have hc'none : c'.in_reply_to_id = none :=
          (hP c hc).2 c' hc' (by rw [hirt, hcp'])
        have hmem : p ∈ topLevelIds cs := by
          unfold topLevelIds
          exact List.mem_map.mpr ⟨c',
            List.mem_filter.mpr ⟨hc', by simp [natTruthy, hc'none]⟩, hcp'⟩
        simp [attachCond, natTruthy, hirt, hp0, hhk, hany, hmem]
  rw [hT, hRr]
  omega

/-- C1 witness: the completeness equality at a concrete input (one review
with body, one top-level comment with one reply, one issue comment). -/
theorem completeness_invariant_inst :
    (buildHierarchy "o/r" 1 (some "sha") wReviews wComments
        wIssues).allComments.length = 4 := by
  have h := completeness_invariant "o/r" 1 (some "sha") wReviews wComments
    wIssues (by decide) (by decide)
  rw [h.1]
  decide

theorem filter_key_unique {α : Type} (f : α → Nat) (q : α → Bool) :
    ∀ (l : List α), (l.map f).Nodup → ∀ a ∈ l,
      (l.filter (fun x => (f x == f a) && q x)).length =
        if q a then 1 else 0 := by
  intro l
  induction l with
  | nil => intro _ a ha; cases ha
  | cons x l ih =>
    intro hN a ha
    have hhead : f x ∉ l.map f := (List.nodup_cons.mp hN).1
    rcases List.mem_cons.mp ha with rfl | ha'
    · have htail : (l.filter (fun y => (f y == f a) && q y)).length = 0 := by
        rw [List.length_eq_zero, List.filter_eq_nil_iff]
        intro y hy
        have : ¬(f y = f a) := fun hh => hhead (hh ▸ List.mem_map_of_mem f hy)
        simp [this]
      cases hq : q a
      · rw [List.filter_cons_of_neg (by simp [hq])]
        rw [htail]
        rfl
      · rw [List.filter_cons_of_pos (by simp [hq])]
        simp [htail]
    · have hne : ¬(f x = f a) := fun hh =>
        hhead (hh ▸ List.mem_map_of_mem f ha')
      rw [List.filter_cons_of_neg (by simp [hne])]
      exact ih (List.nodup_cons.mp hN).2 a ha'

theorem flatC_ids_num (repo : String) (prNumber : Nat)
    (m : List (Nat × CommentData)) (tl : List Nat) (e : FlatComment)
    (he : e ∈ tl.flatMap (topContrib repo prNumber m)) :
    (∃ n, e.id = FlatId.num n ∧ e.type = "inline") ∨
      (∃ n, e.id = FlatId.num n ∧ e.type = "inline-reply") := by
  rcases List.mem_flatMap.mp he with ⟨cid, _, hmem⟩
  unfold topContrib at hmem
  cases hl : jsLookup m cid with
  | none => rw [hl] at hmem; cases hmem
  | some d =>
    rw [hl] at hmem
    rcases List.mem_cons.mp hmem with rfl | hmem'
    · exact Or.inl ⟨d.id, rfl, rfl⟩
    · unfold replyEntriesOf at hmem'
      rcases List.mem_filterMap.mp hmem' with ⟨rid, _, hrid⟩
      cases hlr : jsLookup m rid with
      | none => rw [hlr] at hrid; cases hrid
      | some rd =>
        rw [hlr] at hrid
        simp only [Option.map_some'] at hrid
        have he' : replyEntry repo prNumber rd d.id = e := Option.some.inj hrid
        exact Or.inr ⟨rd.id, by rw [← he']; rfl, by rw [← he']; rfl⟩

/-- C7: a review with empty or whitespace-only (or absent) body contributes
no review-body entry to the flat list, a review with non-empty trimmed body
contributes exactly one entry whose identity is the review-body synthetic
identity of the numeric review id (rendered as the id prefixed with the
reserved `review-body-` marker), and the reviews-with-body statistic counts
exactly the reviews with non-empty trimmed body. -/
theorem review_body_projection (repo : String) (prNumber : Nat)
    (headSha : Option String) (reviews : List RawReview)
    (cs : List RawReviewComment) (ics : List RawIssueComment)
    (hR : (reviews.map (·.id)).Nodup) :
    (∀ r ∈ reviews,
      ((buildHierarchy repo prNumber headSha reviews cs
            ics).allComments.filter
          (fun e => e.id == FlatId.reviewBody r.id)).length =
        if reviewHasBody r then 1 else 0) ∧
      (buildHierarchy repo prNumber headSha reviews cs
          ics).stats.totalReviewBodies =
        (reviews.filter reviewHasBody).length ∧
      ∀ n, FlatId.render (FlatId.reviewBody n) = "review-body-" ++ toString n := by
  refine ⟨?_, rfl, fun n => rfl⟩
  intro r hr
  rw [buildHierarchy_allComments,
    (List.Perm.filter _ (sortCA_perm _)).length_eq]
  unfold presortFlat
  rw [List.filter_append, List.filter_append, List.length_append,
    List.length_append]
  have hC : (((assignPhase repo prNumber
      (secondPass (indexComments headSha cs) cs).1 (topLevelIds cs)
      (reviewsPhase headSha reviews).1).2.2).filter
        (fun e => e.id == FlatId.reviewBody r.id)).length = 0 := by
    rw [List.length_eq_zero, List.filter_eq_nil_iff]
    intro e he
    rw [assignPhase_flat] at he
    rcases flatC_ids_num repo prNumber _ _ e he with ⟨n, hn, _⟩ | ⟨n, hn, _⟩ <;>
      simp [hn]
  have hI : (((issuePhase repo prNumber ics).2).filter
      (fun e => e.id == FlatId.reviewBody r.id)).length = 0 := by
    rw [List.length_eq_zero, List.filter_eq_nil_iff]
    intro e he
    rw [issuePhase_flat] at he
    rcases List.mem_map.mp he with ⟨ic, _, rfl⟩
    simp [convEntry]
  rw [hC, hI, reviewsPhase_flat, List.filter_map, List.length_map]
  have hcongr : (reviews.filter reviewHasBody).filter
      ((fun e => e.id == FlatId.reviewBody r.id) ∘ reviewBodyEntry headSha) =
      (reviews.filter reviewHasBody).filter (fun x => (x.id == r.id)) := by
    refine List.filter_congr ?_
    intro x _
    simp [Function.comp, reviewBodyEntry]
  rw [hcongr, List.filter_filter]
  have hfin := filter_key_unique (·.id) reviewHasBody reviews hR r hr
  simp only [] at hfin ⊢
  rw [hfin]
  omega

/-- C7 witness: the concrete review with body LGTM contributes exactly one
review-body entry. -/
theorem review_body_projection_inst :
    ((buildHierarchy "o/r" 1 (some "sha") wReviews wComments
          wIssues).allComments.filter
        (fun e => e.id == FlatId.reviewBody (mkRev 5 (some "LGTM") 5).id)).length =
      if reviewHasBody (mkRev 5 (some "LGTM") 5) then 1 else 0 :=
  (review_body_projection "o/r" 1 (some "sha") wReviews wComments wIssues
    (by decide)).1 (mkRev 5 (some "LGTM") 5) (by decide)

theorem buildHierarchy_orphaned (repo : String) (prNumber : Nat)
    (headSha : Option String) (reviews : List RawReview)
    (cs : List RawReviewComment) (ics : List RawIssueComment) :
    (buildHierarchy repo prNumber headSha reviews cs ics).orphanedComments =
      (assignPhase repo prNumber (secondPass (indexComments headSha cs) cs).1
        (topLevelIds cs) (reviewsPhase headSha reviews).1).2.1 := rfl

theorem buildHierarchy_reviews (repo : String) (prNumber : Nat)
    (headSha : Option String) (reviews : List RawReview)
    (cs : List RawReviewComment) (ics : List RawIssueComment) :
    (buildHierarchy repo prNumber headSha reviews cs ics).reviews =
      (assignPhase repo prNumber (secondPass (indexComments headSha cs) cs).1
        (topLevelIds cs) (reviewsPhase headSha reviews).1).1 := rfl

theorem filter_flatMap_comm {α β : Type} (l : List α) (f : α → List β)
    (p : β → Bool) :
    (l.flatMap f).filter p = l.flatMap (fun a => (f a).filter p) := by
  induction l with
  | nil => rfl
  | cons a l ih => simp [List.flatMap_cons, List.filter_append, ih]

theorem sum_zero_of_notmem (x : Nat) :
    ∀ (tl : List Nat), x ∉ tl →
      (tl.map (fun k => if k == x then 1 else 0)).sum = 0 := by
  intro tl
  induction tl with
  | nil => intro _; rfl
  | cons k tl ih =>
    intro hx
    have hk : ¬(k = x) := fun hh => hx (by simp [hh])
    simp [hk]
    simpa using ih (fun hh => hx (by simp [hh]))

theorem sum_indicator_nodup (x : Nat) :
    ∀ (tl : List Nat), tl.Nodup → x ∈ tl →
      (tl.map (fun k => if k == x then 1 else 0)).sum = 1 := by
  intro tl
  induction tl with
  | nil => intro _ hx; cases hx
  | cons k tl ih =>
    intro hN hx
    rcases List.mem_cons.mp hx with rfl | hx'
    · simp only [List.map_cons, List.sum_cons, beq_self_eq_true, if_true]
      simpa using sum_zero_of_notmem x tl (List.nodup_cons.mp hN).1
    · have hk : ¬(k = x) := fun hh =>
        (List.nodup_cons.mp hN).1 (hh ▸ hx')
      simp [hk]
      simpa using ih (List.nodup_cons.mp hN).2 hx'

theorem m1_static (headSha : Option String) (cs : List RawReviewComment)
    (hN : (cs.map (·.id)).Nodup) (c0 : RawReviewComment) (hc0 : c0 ∈ cs) :
    ∃ d, jsLookup (secondPass (indexComments headSha cs) cs).1 c0.id = some d ∧
      d.id = c0.id ∧ d.pullRequestReviewId = c0.pull_request_review_id := by
  have hstat := foldl_attach_static cs (indexComments headSha cs) c0.id
  have hl0 : jsLookup (indexComments headSha cs) c0.id =
      some (initComment headSha c0) := by
    rw [indexComments_eq headSha cs hN]
    exact jsLookup_literal_self (·.id) (initComment headSha) cs hN c0 hc0
  rw [hl0] at hstat
  rw [secondPass_fst]
  cases hl1 : jsLookup (cs.foldl attachReply (indexComments headSha cs)) c0.id with
  | none => rw [hl1] at hstat; simp at hstat
  | some d =>
    rw [hl1] at hstat
    simp only [Option.map_some'] at hstat
    have hpair := Option.some.inj hstat
    refine ⟨d, rfl, ?_, ?_⟩
    · have := congrArg Prod.fst hpair
      simpa [initComment] using this
    · have := congrArg Prod.snd hpair
      simpa [initComment] using this

theorem topContrib_filter_single (repo : String) (prNumber : Nat)
    (headSha : Option String) (cs : List RawReviewComment)
    (hN : (cs.map (·.id)).Nodup) (x cid : Nat) (hcid : cid ∈ topLevelIds cs) :
    ((topContrib repo prNumber (secondPass (indexComments headSha cs) cs).1
        cid).filter
      (fun e => e.id == FlatId.num x && e.type == "inline")).length =
      if cid == x then 1 else 0 := by
  unfold topLevelIds at hcid
  rcases List.mem_map.mp hcid with ⟨c0, hc0f, rfl⟩
  rcases m1_static headSha cs hN c0 (List.mem_of_mem_filter hc0f) with
    ⟨d, hld, hid, _⟩
  unfold topContrib
  rw [hld]
  have hrep : ((replyEntriesOf repo prNumber
      (secondPass (indexComments headSha cs) cs).1 d).filter
        (fun e => e.id == FlatId.num x && e.type == "inline")) = [] := by
    rw [List.filter_eq_nil_iff]
    intro e he
    unfold replyEntriesOf at he
    rcases List.mem_filterMap.mp he with ⟨rid, _, hrid⟩
    cases hlr : jsLookup (secondPass (indexComments headSha cs) cs).1 rid with
    | none => rw [hlr] at hrid; cases hrid
    | some rd =>
      rw [hlr] at hrid
      simp only [Option.map_some'] at hrid
      have he' : replyEntry repo prNumber rd d.id = e := Option.some.inj hrid
      rw [← he']
      simp [replyEntry]
  rw [List.filter_cons]
  by_cases hx : c0.id = x
  · rw [if_pos (by simp [inlineEntry, hid, hx])]
    simp [hrep, hx]
  · rw [if_neg (by simp [inlineEntry, hid, hx])]
    simp [hrep, hx]

theorem assignPhase_main_aux (repo : String) (prNumber : Nat)
    (m : List (Nat × CommentData)) (x : Nat) (d0 : CommentData)
    (hx : jsLookup m x = some d0) :
    ∀ (tl : List Nat) (rm : List (Nat × ReviewNode))
      (orph : List (Nat × CommentData)) (flat : List FlatComment),
      tl.Nodup →
      (natTruthy d0.pullRequestReviewId &&
        jsHasKey rm (d0.pullRequestReviewId.getD 0)) = false →
      (∀ q ∈ rm, x ∉ q.2.commentIds) →
      (x ∈ tl →
        jsLookup (tl.foldl
          (fun acc cid =>
            match jsLookup m cid with
            | none => acc
            | some d =>
              let rid := d.pullRequestReviewId.getD 0
              let resolved := natTruthy d.pullRequestReviewId &&
                jsHasKey acc.1 rid
              ((if resolved then
                  jsUpdate acc.1 rid
                    (fun rn =>
                      { rn with commentIds := rn.commentIds ++ [cid] })
                else acc.1),
                (if resolved then acc.2.1 else jsObjSet acc.2.1 cid d),
                acc.2.2 ++ topContrib repo prNumber m cid)) (rm, orph, flat)).2.1
          x = some d0) ∧
      (x ∉ tl →
        jsLookup (tl.foldl
          (fun acc cid =>
            match jsLookup m cid with
            | none => acc
            | some d =>
              let rid := d.pullRequestReviewId.getD 0
              let resolved := natTruthy d.pullRequestReviewId &&
                jsHasKey acc.1 rid
              ((if resolved then
                  jsUpdate acc.1 rid
                    (fun rn =>
                      { rn with commentIds := rn.commentIds ++ [cid] })
                else acc.1),
                (if resolved then acc.2.1 else jsObjSet acc.2.1 cid d),
                acc.2.2 ++ topContrib repo prNumber m cid)) (rm, orph, flat)).2.1
          x = jsLookup orph x) ∧
      (∀ q ∈ (tl.foldl
          (fun acc cid =>
            match jsLookup m cid with
            | none => acc
            | some d =>
              let rid := d.pullRequestReviewId.getD 0
              let resolved := natTruthy d.pullRequestReviewId &&
                jsHasKey acc.1 rid
              ((if resolved then
                  jsUpdate acc.1 rid
                    (fun rn =>
                      { rn with commentIds := rn.commentIds ++ [cid] })
                else acc.1),
                (if resolved then acc.2.1 else jsObjSet acc.2.1 cid d),
                acc.2.2 ++ topContrib repo prNumber m cid)) (rm, orph, flat)).1,
        x ∉ q.2.commentIds) := by
  intro tl
  induction tl with
  | nil =>
    intro rm orph flat _ _ hinv
    exact ⟨fun hx' => absurd hx' (by simp), fun _ => rfl, hinv⟩
  | cons cid tl ih =>
    intro rm orph flat hN hres hinv
    rw [List.foldl_cons]
    by_cases hxc : x = cid
    · subst hxc
      simp only [hx, hres, Bool.false_eq_true, if_false]
      have hxtl : x ∉ tl := (List.nodup_cons.mp hN).1
      have ih'' := ih rm (jsObjSet orph x d0)
        (flat ++ topContrib repo prNumber m x) (List.nodup_cons.mp hN).2
        hres hinv
      refine ⟨fun _ => ?_, fun hff => absurd (by simp) hff, ih''.2.2⟩
      rw [ih''.2.1 hxtl, jsLookup_jsObjSet_self]
    · cases hl : jsLookup m cid with
      | none =>
        have ih' := ih rm orph flat (List.nodup_cons.mp hN).2 hres hinv
        refine ⟨fun hmem => ?_, fun hnm => ?_, ih'.2.2⟩
        · rcases List.mem_cons.mp hmem with hmem' | hmem'
          · exact absurd hmem' hxc
          · exact ih'.1 hmem'
        · exact ih'.2.1 (fun hh => hnm (by simp [hh]))
      | some d =>
        simp only [hl]
        set rid := d.pullRequestReviewId.getD 0 with hrid
        by_cases hresd : (natTruthy d.pullRequestReviewId &&
            jsHasKey rm rid) = true
        · rw [if_pos hresd, if_pos hresd]
          have hres' : (natTruthy d0.pullRequestReviewId &&
              jsHasKey (jsUpdate rm rid
                (fun rn => { rn with commentIds := rn.commentIds ++ [cid] }))
                (d0.pullRequestReviewId.getD 0)) = false := by
            rw [jsHasKey_jsUpdate]
            exact hres
          have hinv' : ∀ q ∈ jsUpdate rm rid
              (fun rn => { rn with commentIds := rn.commentIds ++ [cid] }),
              x ∉ q.2.commentIds := by
            intro q hq
            rcases mem_jsUpdate _ _ _ q hq with ⟨p, hp, hcase | hcase⟩
            · rw [hcase]
              exact hinv p hp
            · rw [hcase]
              intro hmm
              rcases List.mem_append.mp hmm with hmm | hmm
              · exact hinv p hp hmm
              · exact hxc (by simpa using hmm)
          have ih' := ih _ orph (flat ++ topContrib repo prNumber m cid)
            (List.nodup_cons.mp hN).2 hres' hinv'
          refine ⟨fun hmem => ?_, fun hnm => ?_, ih'.2.2⟩
          · rcases List.mem_cons.mp hmem with hmem' | hmem'
            · exact absurd hmem' hxc
            · exact ih'.1 hmem'
          · exact ih'.2.1 (fun hh => hnm (by simp [hh]))
        · rw [if_neg hresd, if_neg hresd]
          have ih' := ih rm (jsObjSet orph cid d)
            (flat ++ topContrib repo prNumber m cid)
            (List.nodup_cons.mp hN).2 hres hinv
          refine ⟨fun hmem => ?_, fun hnm => ?_, ih'.2.2⟩
          · rcases List.mem_cons.mp hmem with hmem' | hmem'
            · exact absurd hmem' hxc
            · exact ih'.1 hmem'
          · rw [ih'.2.1 (fun hh => hnm (by simp [hh]))]
            exact jsLookup_jsObjSet_ne orph x cid d hxc

/-- C8: a top-level inline comment whose owning-review identity does not
resolve to any fetched review is placed in the orphan set, is not in any
comment map of any review, and still appears in the flat list (exactly one
top-level inline entry carries its identity): it is never silently
dropped. -/
theorem orphan_surfaced (repo : String) (prNumber : Nat)
    (headSha : Option String) (reviews : List RawReview)
    (cs : List RawReviewComment) (ics : List RawIssueComment)
    (hN : (cs.map (·.id)).Nodup) (c : RawReviewComment) (hc : c ∈ cs)
    (htop : c.in_reply_to_id = none)
    (hno : ∀ r ∈ reviews, c.pull_request_review_id ≠ some r.id) :
    (∃ d, jsLookup (buildHierarchy repo prNumber headSha reviews cs
        ics).orphanedComments c.id = some d) ∧
      (∀ q ∈ (buildHierarchy repo prNumber headSha reviews cs ics).reviews,
        c.id ∉ q.2.commentIds) ∧
      ((buildHierarchy repo prNumber headSha reviews cs
          ics).allComments.filter
        (fun e => e.id == FlatId.num c.id && e.type == "inline")).length = 1 := by
  obtain ⟨d0, hld, hid, hprr⟩ := m1_static headSha cs hN c hc
  have hmem : c.id ∈ topLevelIds cs := by
    unfold topLevelIds
    exact List.mem_map.mpr
      ⟨c, List.mem_filter.mpr ⟨hc, by simp [natTruthy, htop]⟩, rfl⟩
  have htlN := topLevelIds_nodup cs hN
  have hres : (natTruthy d0.pullRequestReviewId &&
      jsHasKey (reviewsPhase headSha reviews).1
        (d0.pullRequestReviewId.getD 0)) = false := by
    rw [hprr]
    cases hcp : c.pull_request_review_id with
    | none => simp [natTruthy]
    | some rid =>
      have hanyf : (reviews.any (fun r => r.id == rid)) = false := by
        cases hany : reviews.any (fun r => r.id == rid)
        · rfl
        · rcases List.any_eq_true.mp hany with ⟨r, hrr, hre⟩
          exact absurd
            (by rw [hcp]
                exact congrArg some ((by simpa using hre : r.id = rid)).symm)
            (hno r hrr)
      rw [reviewsPhase_hasKey]
      simp [hanyf]
  have hinv0' : ∀ q ∈ (reviewsPhase headSha reviews).1,
      c.id ∉ q.2.commentIds := by
    intro q hq
    rw [reviewsPhase_commentIds headSha reviews q hq]
    simp
  have haux := assignPhase_main_aux repo prNumber
    (secondPass (indexComments headSha cs) cs).1 c.id d0 hld (topLevelIds cs)
    (reviewsPhase headSha reviews).1 [] [] htlN hres hinv0'
  refine ⟨⟨d0, ?_⟩, ?_, ?_⟩
  · rw [buildHierarchy_orphaned]
    unfold assignPhase
    exact haux.1 hmem
  · rw [buildHierarchy_reviews]
    unfold assignPhase
    exact haux.2.2
  · rw [buildHierarchy_allComments,
      (List.Perm.filter _ (sortCA_perm _)).length_eq]
    unfold presortFlat
    rw [List.filter_append, List.filter_append, List.length_append,
      List.length_append]
    have hR0 : (((reviewsPhase headSha reviews).2).filter
        (fun e => e.id == FlatId.num c.id && e.type == "inline")).length = 0 := by
      rw [List.length_eq_zero, List.filter_eq_nil_iff]
      intro e he
      rw [reviewsPhase_flat] at he
      rcases List.mem_map.mp he with ⟨r, _, rfl⟩
      simp [reviewBodyEntry]
    have hI0 : (((issuePhase repo prNumber ics).2).filter
        (fun e => e.id == FlatId.num c.id && e.type == "inline")).length = 0 := by
      rw [List.length_eq_zero, List.filter_eq_nil_iff]
      intro e he
      rw [issuePhase_flat] at he
      rcases List.mem_map.mp he with ⟨ic, _, rfl⟩
      simp [convEntry]
    rw [hR0, hI0, assignPhase_flat, filter_flatMap_comm, List.length_flatMap]
    have hmapc : (topLevelIds cs).map
        (List.length ∘ fun cid =>
          (topContrib repo prNumber
            (secondPass (indexComments headSha cs) cs).1 cid).filter
            (fun e => e.id == FlatId.num c.id && e.type == "inline")) =
        (topLevelIds cs).map (fun cid => if cid == c.id then 1 else 0) := by
      refine List.map_congr_left ?_
      intro cid hcid
      simp only [Function.comp]
      exact topContrib_filter_single repo prNumber headSha cs hN c.id cid hcid
    rw [hmapc, sum_indicator_nodup c.id (topLevelIds cs) htlN hmem]

/-- C8 witness: the concrete comment owned by never-fetched review 77 lands
in the orphan set and surfaces in the flat list. -/
theorem orphan_surfaced_inst :
    (∃ d, jsLookup (buildHierarchy "o/r" 1 (some "sha") [] wOrphan
        []).orphanedComments (mkRC 6 none (some 77) 10).id = some d) ∧
      (∀ q ∈ (buildHierarchy "o/r" 1 (some "sha") [] wOrphan []).reviews,
        (mkRC 6 none (some 77) 10).id ∉ q.2.commentIds) ∧
      ((buildHierarchy "o/r" 1 (some "sha") [] wOrphan []).allComments.filter
        (fun e => e.id == FlatId.num (mkRC 6 none (some 77) 10).id &&
          e.type == "inline")).length = 1 :=
  orphan_surfaced "o/r" 1 (some "sha") [] wOrphan [] (by decide)
    (mkRC 6 none (some 77) 10) (by decide) rfl (by intro r hr; cases hr)
